import Mathlib

/-!
Vehicle permit tracker: status derivation, access resolution and sharing workflow.

A shallow embedding of the request handlers of `src/server.js`.

* The SQL store is a record of tables, each table a list of rows in insertion order.
* Every handler is a pure function from the store (and the session of the caller) to a
  response and the store after the call.  Storage failures (the `err` branches that answer
  500) are not modelled, except for the per-pair insert of the bulk share creation, whose
  failure is reported as data by the handler.
* Values that arrive as JSON or come back from a column are `JsVal`; the only thing the
  handlers do with them is test their truthiness, bind them into a column and hand them
  back.
* The clock (`new Date()`, `datetime(now)`) and the `Date` constructor belong to the
  JavaScript runtime, and the conversion a column applies to a bound value belongs to the
  storage driver; all are supplied by a `Runtime` record.
-/

namespace VMS

/-! ## JavaScript values and the runtime -/

/-- A JSON / SQLite scalar as the handlers see it. -/
inductive JsVal where
  | undefined
  | null
  | bool (b : Bool)
  | num (n : Int)
  | str (s : String)
  deriving DecidableEq, Repr

/-- ECMAScript `ToBoolean`, the test made by `if (x)` and by `x ? a : b`. -/
def JsVal.truthy : JsVal → Bool
  | .undefined => false
  | .null => false
  | .bool b => b
  | .num n => n != 0
  | .str s => s != ""

/-- An example of what a column of TEXT affinity gives back for a bound value, after the
sqlite3 driver on the values the examples bind: text is kept, `null` and an unbound
(`undefined`) parameter are NULL, a boolean is bound as the integer 1 or 0 and an integer
number as INTEGER, and both are turned into their decimal text. -/
def textAffinity : JsVal → JsVal
  | .undefined => .null
  | .null => .null
  | .bool b => .str (if b then "1" else "0")
  | .num n => .str (toString n)
  | .str s => .str s

/-- The value of a non-empty run of decimal digits. -/
def decimalValue (cs : List Char) : Option Nat :=
  match cs with
  | [] => none
  | _ :: _ =>
    cs.foldl (fun acc c =>
      match acc with
      | some n => if c.isDigit then some (10 * n + (c.toNat - 48)) else none
      | none => none) (some 0)

/-- An example of what a column of INTEGER affinity gives back for a bound value: NULL for
`null` and an unbound parameter, the integer for a boolean or an integer number, the
integer for text that is a run of decimal digits with an optional minus sign, and other
text as it is. -/
def integerAffinity : JsVal → JsVal
  | .undefined => .null
  | .null => .null
  | .bool b => .num (if b then 1 else 0)
  | .num n => .num n
  | .str s =>
    match s.toList with
    | [] => .str s
    | c :: cs =>
      if c = Char.ofNat 45 then
        match decimalValue cs with
        | some n => .num (-(n : Int))
        | none => .str s
      else
        match decimalValue (c :: cs) with
        | some n => .num (n : Int)
        | none => .str s

/-- What lies outside the handlers and is supplied to one request.  From the JavaScript
runtime: the time value of `new Date()` (milliseconds since the epoch) and the time value of
`new Date(x)`, which is `none` when `x` does not parse (an Invalid Date, whose time value is
NaN).  From the storage driver: what a column of TEXT affinity (`textColumn`) and a column of
INTEGER affinity (`integerColumn`) give back for a value bound into them; the theorems hold
for every such conversion, the examples use `textAffinity` and `integerAffinity`. -/
structure Runtime where
  now : Int
  newDate : JsVal → Option Int
  textColumn : JsVal → JsVal := textAffinity
  integerColumn : JsVal → JsVal := integerAffinity

/-- The comparison `x < k` on a number that may be NaN (`none`): false on NaN. -/
def jsLt (x : Option Int) (k : Int) : Bool :=
  match x with
  | none => false
  | some d => decide (d < k)

/-- The comparison `x <= k` on a number that may be NaN (`none`): false on NaN. -/
def jsLe (x : Option Int) (k : Int) : Bool :=
  match x with
  | none => false
  | some d => decide (d ≤ k)

/-- The expression `Math.ceil(x / k)`: NaN stays NaN, otherwise the ceiling of the exact
quotient (the double quotient has the same ceiling whenever `|x| < 2^53`). -/
def mathCeilDiv (x : Option Int) (k : Int) : Option Int :=
  x.map (fun t => Int.ceil ((t : ℚ) / (k : ℚ)))

/-- The helper `calculateStatus(expiryDate, onHold)` of `server.js` (lines 364-374). -/
def calculateStatus (rt : Runtime) (expiryDate onHold : JsVal) : String :=
  if onHold.truthy then "On Hold" else
  let today := rt.now
  let expiry := rt.newDate expiryDate
  let diffTime := expiry.map (fun e => e - today)
  let diffDays := mathCeilDiv diffTime (1000 * 60 * 60 * 24)
  if jsLt diffDays 0 then "Invalid"
  else if jsLe diffDays 10 then "Expiring Soon"
  else "Valid"

/-- Spec wording (section 4.1): `daysRemaining = ceil((expiryDate - now) / 1 day)`, on time
values in milliseconds. -/
def daysRemaining (expiryDate now : Int) : Int :=
  Int.ceil (((expiryDate - now : Int) : ℚ) / 86400000)

/-- The length of `n` days in milliseconds. -/
def days (n : Int) : Int := n * 86400000

/-! ## Tables -/

/-- A row of the `vehicles` table (schema at lines 90-102). -/
structure Vehicle where
  id : Nat
  ownerName : JsVal
  idNumber : JsVal
  plateNumber : JsVal
  permitExpiryDate : JsVal
  modelYear : JsVal
  vehicleName : JsVal
  category : JsVal
  status : JsVal
  isOnHold : JsVal
  owner_id : Nat
  deriving DecidableEq, Repr

/-- A row of the `vehicle_shares` table (schema at lines 112-120): the only key is the
autoincrement `id`; the triple of the other three columns carries no UNIQUE constraint. -/
structure VehicleShare where
  id : Nat
  vehicle_id : Nat
  shared_by_user_id : Nat
  shared_to_user_id : Nat
  deriving DecidableEq, Repr

/-- Modelled from the spec: the `CREATE TABLE share_requests` statement is not in
`server.js`; the columns are the ones the handlers insert and select, and `id` is an
autoincrementing identity as the spec requires of the store. -/
structure ShareRequest where
  id : Nat
  vehicle_id : Nat
  shared_by_user_id : Nat
  shared_to_user_id : Nat
  status : String
  created_at : Int
  updated_at : Int
  deriving DecidableEq, Repr

/-- A row of the `users` table (schema at lines 123-129); `password` stands for the stored
hash, which the model compares by equality. -/
structure User where
  id : Nat
  username : String
  password : String
  role : String
  deriving DecidableEq, Repr

/-- The fields `req.session.userId` and `req.session.role`, fixed at login. -/
structure Session where
  userId : Nat
  role : String
  deriving DecidableEq, Repr

/-- The store: the four tables, the autoincrement counter of each (the largest id ever
handed out, as kept in `sqlite_sequence`), and the sessions that are logged in. -/
structure State where
  vehicles : List Vehicle
  vehicle_shares : List VehicleShare
  share_requests : List ShareRequest
  users : List User
  vehicles_seq : Nat
  vehicle_shares_seq : Nat
  share_requests_seq : Nat
  users_seq : Nat
  sessions : List Session
  deriving Repr

/-- The id an `INTEGER PRIMARY KEY AUTOINCREMENT` column gives the next inserted row: one
more than the largest id the table holds or has ever held. -/
def freshId (ids : List Nat) (seq : Nat) : Nat :=
  max seq (ids.foldr max 0) + 1

/-- The store right after the schema setup: no rows but the default `admin` user. -/
def initialState : State where
  vehicles := []
  vehicle_shares := []
  share_requests := []
  users := [{ id := 1, username := "admin", password := "admin789", role := "admin" }]
  vehicles_seq := 0
  vehicle_shares_seq := 0
  share_requests_seq := 0
  users_seq := 1
  sessions := []

/-! ## Responses -/

/-- The JSON bodies the modelled handlers answer with. -/
inductive Body where
  | error (msg : String)
  | success
  | created (id : Nat) (status : String)
  | updated (changes : Nat) (status : String)
  | deleted (changes : Nat)
  | shareCreated (requestsCreated : Nat) (errors : Option (List String))
  | restored (count : Nat)
  deriving DecidableEq, Repr

/-- An HTTP response: status code and JSON body. -/
structure Response where
  code : Nat
  body : Body
  deriving DecidableEq, Repr

/-! ## Listing the visible vehicles: `GET /api/vehicles` (lines 530-573) -/

/-- One element of the JSON array answered by `GET /api/vehicles`: the columns `v.*` (with
`status` overwritten by the handler), the `access_level` tag, and `owner_username`, which is
`undefined` when the query has no such column (the non-admin branch). -/
structure VehicleRow where
  vehicle : Vehicle
  access_level : String
  owner_username : JsVal
  deriving DecidableEq, Repr

/-- The first SELECT of the non-admin query: `v.*, owner` for `v.owner_id = ?`. -/
def ownedRows (s : State) (userId : Nat) : List (Vehicle × String) :=
  (s.vehicles.filter (fun v => decide (v.owner_id = userId))).map (fun v => (v, "owner"))

/-- The second SELECT of the non-admin query: `v.*, shared` for every pair of a vehicle and
a `vehicle_shares` row with `v.id = vs.vehicle_id` and `vs.shared_to_user_id = ?`. -/
def sharedRows (s : State) (userId : Nat) : List (Vehicle × String) :=
  s.vehicles.flatMap (fun v =>
    (s.vehicle_shares.filter
      (fun vs => decide (v.id = vs.vehicle_id) && decide (vs.shared_to_user_id = userId))).map
      (fun _ => (v, "shared")))

/-- SQL `UNION`: the rows of both operands with duplicate rows (equal in every column)
removed.  SQL leaves the order of the result open; nothing below depends on it. -/
def sqlUnion (a b : List (Vehicle × String)) : List (Vehicle × String) :=
  (a ++ b).dedup

/-- The admin query: `vehicles v LEFT JOIN users u ON v.owner_id = u.id`, selecting `v.*`
and `u.username as owner_username` (NULL when no user matches). -/
def adminRows (s : State) : List (Vehicle × JsVal) :=
  s.vehicles.flatMap (fun v =>
    match s.users.filter (fun u => decide (v.owner_id = u.id)) with
    | [] => [(v, JsVal.null)]
    | us => us.map (fun u => (v, JsVal.str u.username)))

/-- The object `{...v, status: calculateStatus(v.permitExpiryDate, v.isOnHold)}`. -/
def withStatus (rt : Runtime) (v : Vehicle) : Vehicle :=
  { v with status := JsVal.str (calculateStatus rt v.permitExpiryDate v.isOnHold) }

/-- The handler of `GET /api/vehicles`: the body of its 200 response. -/
def getVehicles (rt : Runtime) (s : State) (caller : Session) : List VehicleRow :=
  if caller.role = "admin" then
    (adminRows s).map (fun r =>
      { vehicle := withStatus rt r.1, access_level := "admin", owner_username := r.2 })
  else
    (sqlUnion (ownedRows s caller.userId) (sharedRows s caller.userId)).map (fun r =>
      { vehicle := withStatus rt r.1, access_level := r.2, owner_username := JsVal.undefined })

/-! ## Vehicle mutations (lines 575-625) and restore (lines 640-661) -/

/-- The fields the vehicle handlers read from a JSON object of the request body. -/
structure VehicleBody where
  ownerName : JsVal
  idNumber : JsVal
  plateNumber : JsVal
  permitExpiryDate : JsVal
  modelYear : JsVal
  vehicleName : JsVal
  category : JsVal
  isOnHold : JsVal
  deriving DecidableEq, Repr

/-- The expression `isOnHold ? 1 : 0`. -/
def holdFlag (isOnHold : JsVal) : JsVal :=
  JsVal.num (if isOnHold.truthy then 1 else 0)

/-- The handler of `POST /api/vehicles`: one INSERT whose `owner_id` is the session user;
the seven descriptive values are bound into TEXT columns, the integer `isOnHold ? 1 : 0`
into the INTEGER column, and the `status` column is not in the column list and stays
NULL. -/
def postVehicle (rt : Runtime) (s : State) (caller : Session) (b : VehicleBody) :
    Response × State :=
  let lastID := freshId (s.vehicles.map (fun v => v.id)) s.vehicles_seq
  let row : Vehicle :=
    { id := lastID, ownerName := rt.textColumn b.ownerName,
      idNumber := rt.textColumn b.idNumber, plateNumber := rt.textColumn b.plateNumber,
      permitExpiryDate := rt.textColumn b.permitExpiryDate,
      modelYear := rt.textColumn b.modelYear, vehicleName := rt.textColumn b.vehicleName,
      category := rt.textColumn b.category,
      status := JsVal.null, isOnHold := holdFlag b.isOnHold, owner_id := caller.userId }
  ({ code := 200, body := Body.created lastID (calculateStatus rt b.permitExpiryDate b.isOnHold) },
   { s with vehicles := s.vehicles ++ [row], vehicles_seq := lastID })

/-- The statement `UPDATE vehicles SET ... WHERE id=?` applied to one row: the seven
descriptive values are bound into TEXT columns and the integer `isOnHold ? 1 : 0` into the
INTEGER column. -/
def updateRow (rt : Runtime) (id : Nat) (b : VehicleBody) (v : Vehicle) : Vehicle :=
  if v.id = id then
    { v with ownerName := rt.textColumn b.ownerName, idNumber := rt.textColumn b.idNumber,
             plateNumber := rt.textColumn b.plateNumber,
             permitExpiryDate := rt.textColumn b.permitExpiryDate,
             modelYear := rt.textColumn b.modelYear,
             vehicleName := rt.textColumn b.vehicleName,
             category := rt.textColumn b.category,
             isOnHold := holdFlag b.isOnHold }
  else v

/-- The handler of `PUT /api/vehicles/:id`. -/
def putVehicle (rt : Runtime) (s : State) (caller : Session) (id : Nat) (b : VehicleBody) :
    Response × State :=
  match s.vehicles.find? (fun v => decide (v.id = id)) with
  | none => ({ code := 404, body := Body.error "Vehicle not found" }, s)
  | some row =>
    if caller.role ≠ "admin" ∧ row.owner_id ≠ caller.userId then
      ({ code := 403, body := Body.error "You can only edit your own vehicles" }, s)
    else
      ({ code := 200,
         body := Body.updated ((s.vehicles.filter (fun v => decide (v.id = id))).length)
                   (calculateStatus rt b.permitExpiryDate b.isOnHold) },
       { s with vehicles := s.vehicles.map (updateRow rt id b) })

/-- The handler of `DELETE /api/vehicles/:id`. -/
def deleteVehicle (s : State) (caller : Session) (id : Nat) : Response × State :=
  match s.vehicles.find? (fun v => decide (v.id = id)) with
  | none => ({ code := 404, body := Body.error "Vehicle not found" }, s)
  | some row =>
    if caller.role ≠ "admin" ∧ row.owner_id ≠ caller.userId then
      ({ code := 403, body := Body.error "You can only delete your own vehicles" }, s)
    else
      ({ code := 200,
         body := Body.deleted ((s.vehicles.filter (fun v => decide (v.id = id))).length) },
       { s with vehicles := s.vehicles.filter (fun v => !decide (v.id = id)) })

/-- One `stmt.run` of the restore loop: an INSERT without `owner_id` (column default 0) and
without `status`; the seven descriptive values are bound into TEXT columns and `v.isOnHold`,
as sent, into the INTEGER column. -/
def restoreInsert (rt : Runtime) (s : State) (b : VehicleBody) : State :=
  let newId := freshId (s.vehicles.map (fun v => v.id)) s.vehicles_seq
  let row : Vehicle :=
    { id := newId, ownerName := rt.textColumn b.ownerName,
      idNumber := rt.textColumn b.idNumber, plateNumber := rt.textColumn b.plateNumber,
      permitExpiryDate := rt.textColumn b.permitExpiryDate,
      modelYear := rt.textColumn b.modelYear, vehicleName := rt.textColumn b.vehicleName,
      category := rt.textColumn b.category,
      status := JsVal.null, isOnHold := rt.integerColumn b.isOnHold, owner_id := 0 }
  { s with vehicles := s.vehicles ++ [row], vehicles_seq := newId }

/-- The handler of `POST /api/restore`; `none` is a body that is not an array.  The
handler reads neither the session user nor the session role. -/
def postRestore (rt : Runtime) (s : State) (_caller : Session)
    (body : Option (List VehicleBody)) : Response × State :=
  match body with
  | none => ({ code := 400, body := Body.error "Invalid data format" }, s)
  | some vehicles =>
    let cleared : State := { s with vehicles := [] }
    ({ code := 200, body := Body.restored vehicles.length },
     vehicles.foldl (restoreInsert rt) cleared)

/-- A JSON object as a client may post it to the vehicle endpoints: the eight properties
the handlers destructure, and the properties `id`, `owner_id` and `status`, which a client
may send along and which no handler reads. -/
structure VehicleJson where
  ownerName : JsVal
  idNumber : JsVal
  plateNumber : JsVal
  permitExpiryDate : JsVal
  modelYear : JsVal
  vehicleName : JsVal
  category : JsVal
  isOnHold : JsVal
  id : JsVal
  owner_id : JsVal
  status : JsVal
  deriving DecidableEq, Repr

/-- The destructuring `const { ownerName, idNumber, plateNumber, permitExpiryDate,
modelYear, vehicleName, category, isOnHold } = req.body` of both vehicle handlers. -/
def VehicleJson.destructure (j : VehicleJson) : VehicleBody :=
  { ownerName := j.ownerName, idNumber := j.idNumber, plateNumber := j.plateNumber,
    permitExpiryDate := j.permitExpiryDate, modelYear := j.modelYear,
    vehicleName := j.vehicleName, category := j.category, isOnHold := j.isOnHold }

/-! ## Sharing workflow (lines 404-442 and 487-528) -/

/-- One `stmt.run` of the bulk share creation: the pair insert either fails (the storage
reports `insertError vehicleId targetUserId = some msg`, the row is not written and an entry
is pushed to `errors`) or writes a pending request dated now and increments `insertCount`. -/
def insertShareRequest (rt : Runtime) (insertError : Nat → Nat → Option String)
    (userId : Nat) (acc : State × Nat × List String) (pair : Nat × Nat) :
    State × Nat × List String :=
  let s := acc.1
  let insertCount := acc.2.1
  let errors := acc.2.2
  match insertError pair.1 pair.2 with
  | some msg =>
    (s, insertCount,
      errors ++ ["Vehicle " ++ toString pair.1 ++ " to User " ++ toString pair.2 ++ ": " ++ msg])
  | none =>
    let newId := freshId (s.share_requests.map (fun r => r.id)) s.share_requests_seq
    let row : ShareRequest :=
      { id := newId, vehicle_id := pair.1, shared_by_user_id := userId,
        shared_to_user_id := pair.2, status := "pending",
        created_at := rt.now, updated_at := rt.now }
    ({ s with share_requests := s.share_requests ++ [row], share_requests_seq := newId },
      insertCount + 1, errors)

/-- The pairs visited by the nested `forEach` loops, in visiting order. -/
def sharePairs (vehicleIds targetUserIds : List Nat) : List (Nat × Nat) :=
  vehicleIds.flatMap (fun vehicleId => targetUserIds.map (fun targetUserId => (vehicleId, targetUserId)))

/-- The handler of `POST /api/share-requests` on the sqlite3 back-end, where `finalize`
calls back after every queued `run`; `none` is a body field that is not an array. -/
def postShareRequests (rt : Runtime) (insertError : Nat → Nat → Option String)
    (s : State) (caller : Session) (vehicleIds targetUserIds : Option (List Nat)) :
    Response × State :=
  match vehicleIds, targetUserIds with
  | some vs, some ts =>
    if vs.length = 0 ∨ ts.length = 0 then
      ({ code := 400, body := Body.error "No vehicles or users selected" }, s)
    else
      let r := (sharePairs vs ts).foldl (insertShareRequest rt insertError caller.userId) (s, 0, [])
      ({ code := 200,
         body := Body.shareCreated r.2.1 (if r.2.2.length > 0 then some r.2.2 else none) },
       r.1)
  | _, _ => ({ code := 400, body := Body.error "Invalid request format" }, s)

/-- The handler of `POST /api/share-requests` on the Turso wrapper (lines 47-77).  The
`run` of the wrapper only starts `client.execute` and calls back from the promise, which is
after the handler has returned, while its `finalize` calls back at once.  So the response is
built while `insertCount` is still 0 and `errors` still empty, and the pair inserts land in
the store afterwards. -/
def postShareRequestsTurso (rt : Runtime) (insertError : Nat → Nat → Option String)
    (s : State) (caller : Session) (vehicleIds targetUserIds : Option (List Nat)) :
    Response × State :=
  match vehicleIds, targetUserIds with
  | some vs, some ts =>
    if vs.length = 0 ∨ ts.length = 0 then
      ({ code := 400, body := Body.error "No vehicles or users selected" }, s)
    else
      let insertCount := 0
      let errors : List String := []
      let r := (sharePairs vs ts).foldl (insertShareRequest rt insertError caller.userId) (s, 0, [])
      ({ code := 200,
         body := Body.shareCreated insertCount (if errors.length > 0 then some errors else none) },
       r.1)
  | _, _ => ({ code := 400, body := Body.error "Invalid request format" }, s)

/-- The lookup `SELECT * FROM share_requests WHERE id = ? AND shared_to_user_id = ?` made by
`db.get`, which yields the first matching row. -/
def findRequest (s : State) (requestId userId : Nat) : Option ShareRequest :=
  s.share_requests.find? (fun r => decide (r.id = requestId) && decide (r.shared_to_user_id = userId))

/-- The statement `UPDATE share_requests SET status = ?, updated_at = datetime(now)
WHERE id = ?` applied to one row. -/
def setStatus (rt : Runtime) (requestId : Nat) (status : String) (r : ShareRequest) :
    ShareRequest :=
  if r.id = requestId then { r with status := status, updated_at := rt.now } else r

/-- The statement `INSERT OR IGNORE INTO vehicle_shares (vehicle_id, shared_by_user_id,
shared_to_user_id)`.  OR IGNORE skips the row only when it violates a uniqueness (or NOT
NULL / CHECK) constraint of the table; the schema at lines 112-120 declares none but the
primary key `id`, so the row is skipped only if its id is taken. -/
def insertOrIgnoreShare (s : State) (vehicle_id shared_by_user_id shared_to_user_id : Nat) :
    State :=
  let newId := freshId (s.vehicle_shares.map (fun g => g.id)) s.vehicle_shares_seq
  if s.vehicle_shares.any (fun g => decide (g.id = newId)) then s
  else
    { s with
      vehicle_shares := s.vehicle_shares ++
        [{ id := newId, vehicle_id := vehicle_id, shared_by_user_id := shared_by_user_id,
           shared_to_user_id := shared_to_user_id }]
      vehicle_shares_seq := newId }

/-- The handler of `POST /api/share-requests/:id/accept`. -/
def acceptShareRequest (rt : Runtime) (s : State) (caller : Session) (requestId : Nat) :
    Response × State :=
  match findRequest s requestId caller.userId with
  | none => ({ code := 404, body := Body.error "Request not found" }, s)
  | some request =>
    if request.status ≠ "pending" then
      ({ code := 400, body := Body.error "Request already processed" }, s)
    else
      let s1 : State :=
        { s with share_requests := s.share_requests.map (setStatus rt requestId "accepted") }
      ({ code := 200, body := Body.success },
       insertOrIgnoreShare s1 request.vehicle_id request.shared_by_user_id
         request.shared_to_user_id)

/-- The handler of `POST /api/share-requests/:id/reject`. -/
def rejectShareRequest (rt : Runtime) (s : State) (caller : Session) (requestId : Nat) :
    Response × State :=
  match findRequest s requestId caller.userId with
  | none => ({ code := 404, body := Body.error "Request not found" }, s)
  | some request =>
    if request.status ≠ "pending" then
      ({ code := 400, body := Body.error "Request already processed" }, s)
    else
      ({ code := 200, body := Body.success },
       { s with share_requests := s.share_requests.map (setStatus rt requestId "rejected") })

/-! ## Share request queries (lines 445-484) -/

/-- The FROM clause of both queries: `share_requests sr JOIN vehicles v ON sr.vehicle_id =
v.id JOIN users u ON <user column of sr> = u.id`.  Both joins are inner joins: a request
with no matching vehicle row or no matching user row yields no joined row. -/
def joinRequests (s : State) (userOf : ShareRequest → Nat) :
    List (ShareRequest × Vehicle × User) :=
  s.share_requests.flatMap (fun sr =>
    (s.vehicles.filter (fun v => decide (sr.vehicle_id = v.id))).flatMap (fun v =>
      (s.users.filter (fun u => decide (userOf sr = u.id))).map (fun u => (sr, v, u))))

/-- The clause `ORDER BY sr.created_at DESC`; SQL leaves the order of rows with equal
`created_at` open, the model keeps them in table order. -/
def orderByCreatedDesc (rows : List (ShareRequest × Vehicle × User)) :
    List (ShareRequest × Vehicle × User) :=
  rows.insertionSort (fun a b => a.1.created_at ≥ b.1.created_at)

/-- One element of the array answered by `GET /api/share-requests/pending`. -/
structure PendingRow where
  id : Nat
  vehicle_id : Nat
  shared_by_user_id : Nat
  created_at : Int
  vehicleName : JsVal
  plateNumber : JsVal
  ownerName : JsVal
  shared_by_username : String
  deriving DecidableEq, Repr

/-- One element of the array answered by `GET /api/share-requests/sent`. -/
structure SentRow where
  id : Nat
  vehicle_id : Nat
  shared_to_user_id : Nat
  status : String
  created_at : Int
  updated_at : Int
  vehicleName : JsVal
  plateNumber : JsVal
  shared_to_username : String
  deriving DecidableEq, Repr

/-- The handler of `GET /api/share-requests/pending`: the body of its 200 response. -/
def listPending (s : State) (caller : Session) : List PendingRow :=
  (orderByCreatedDesc
    ((joinRequests s (fun sr => sr.shared_by_user_id)).filter (fun t =>
      decide (t.1.shared_to_user_id = caller.userId) && decide (t.1.status = "pending")))).map
    (fun t =>
      { id := t.1.id, vehicle_id := t.1.vehicle_id, shared_by_user_id := t.1.shared_by_user_id,
        created_at := t.1.created_at, vehicleName := t.2.1.vehicleName,
        plateNumber := t.2.1.plateNumber, ownerName := t.2.1.ownerName,
        shared_by_username := t.2.2.username })

/-- The handler of `GET /api/share-requests/sent`: the body of its 200 response. -/
def listSent (s : State) (caller : Session) : List SentRow :=
  (orderByCreatedDesc
    ((joinRequests s (fun sr => sr.shared_to_user_id)).filter (fun t =>
      decide (t.1.shared_by_user_id = caller.userId)))).map
    (fun t =>
      { id := t.1.id, vehicle_id := t.1.vehicle_id, shared_to_user_id := t.1.shared_to_user_id,
        status := t.1.status, created_at := t.1.created_at, updated_at := t.1.updated_at,
        vehicleName := t.2.1.vehicleName, plateNumber := t.2.1.plateNumber,
        shared_to_username := t.2.2.username })

/-! ## Login and user management (lines 214-225 and 285-346) -/

/-- The handler of `POST /api/login`: on a matching user row the session records its id and
role. -/
def login (s : State) (username password : String) : Response × State :=
  match s.users.find? (fun u => decide (u.username = username)) with
  | none => ({ code := 401, body := Body.error "Invalid credentials" }, s)
  | some user =>
    if user.password ≠ password then
      ({ code := 401, body := Body.error "Invalid credentials" }, s)
    else
      ({ code := 200, body := Body.success },
       { s with sessions := s.sessions ++ [{ userId := user.id, role := user.role }] })

/-- The statement `INSERT INTO users (username, password, role)`; it fails on the UNIQUE
constraint of `username`. -/
def insertUser (s : State) (username password role : String) : Option State :=
  if s.users.any (fun u => decide (u.username = username)) then none
  else
    let newId := freshId (s.users.map (fun u => u.id)) s.users_seq
    some { s with
      users := s.users ++ [{ id := newId, username := username, password := password, role := role }]
      users_seq := newId }

/-- The handler of `POST /api/users/create`, open to every logged-in user; the role column
takes its default `user`. -/
def usersCreate (s : State) (username password : String) : Response × State :=
  match insertUser s username password "user" with
  | none => ({ code := 400, body := Body.error "Username already exists" }, s)
  | some s1 => ({ code := 200, body := Body.success }, s1)

/-- The handler of `POST /api/users` behind `requireAdmin`. -/
def postUser (s : State) (caller : Session) (username password role : String) :
    Response × State :=
  if caller.role ≠ "admin" then ({ code := 403, body := Body.error "Access denied" }, s)
  else if username = "" ∨ password = "" then
    ({ code := 400, body := Body.error "Missing fields" }, s)
  else
    match insertUser s username password (if role = "" then "user" else role) with
    | none => ({ code := 500, body := Body.error "UNIQUE constraint failed: users.username" }, s)
    | some s1 => ({ code := 200, body := Body.success }, s1)

/-- The handler of `DELETE /api/users/:id` behind `requireAdmin`. -/
def deleteUser (s : State) (caller : Session) (id : Nat) : Response × State :=
  if caller.role ≠ "admin" then ({ code := 403, body := Body.error "Access denied" }, s)
  else if id = caller.userId then
    ({ code := 400, body := Body.error "Cannot delete yourself" }, s)
  else
    ({ code := 200, body := Body.success },
     { s with users := s.users.filter (fun u => !decide (u.id = id)) })

/-- The handler of `PUT /api/users/:id` behind `requireAdmin`; an empty password leaves the
stored one. -/
def putUser (s : State) (caller : Session) (id : Nat) (password role : String) :
    Response × State :=
  if caller.role ≠ "admin" then ({ code := 403, body := Body.error "Access denied" }, s)
  else
    ({ code := 200, body := Body.success },
     { s with users := s.users.map (fun u =>
         if u.id = id then
           { u with role := role, password := if password = "" then u.password else password }
         else u) })

/-! ## The API as a transition system -/

/-- A call of one of the state-changing endpoints. -/
inductive Call where
  | usersCreate (username password : String)
  | postUser (username password role : String)
  | deleteUser (id : Nat)
  | putUser (id : Nat) (password role : String)
  | postVehicle (b : VehicleBody)
  | putVehicle (id : Nat) (b : VehicleBody)
  | deleteVehicle (id : Nat)
  | postRestore (body : Option (List VehicleBody))
  | postShareRequests (insertError : Nat → Nat → Option String)
      (vehicleIds targetUserIds : Option (List Nat))
  | acceptShareRequest (requestId : Nat)
  | rejectShareRequest (requestId : Nat)

/-- An HTTP request: a login, or a call sent with the session of `caller`. -/
inductive Request where
  | login (username password : String)
  | call (caller : Session) (c : Call)

/-- Dispatch of a call to its handler. -/
def handle (rt : Runtime) (s : State) (caller : Session) : Call → Response × State
  | .usersCreate u p => usersCreate s u p
  | .postUser u p r => postUser s caller u p r
  | .deleteUser id => deleteUser s caller id
  | .putUser id p r => putUser s caller id p r
  | .postVehicle b => postVehicle rt s caller b
  | .putVehicle id b => putVehicle rt s caller id b
  | .deleteVehicle id => deleteVehicle s caller id
  | .postRestore body => postRestore rt s caller body
  | .postShareRequests e vs ts => postShareRequests rt e s caller vs ts
  | .acceptShareRequest id => acceptShareRequest rt s caller id
  | .rejectShareRequest id => rejectShareRequest rt s caller id

/-- The server on one request: `POST /api/login` is public, every other endpoint sits
behind `isAuthenticated`, which answers 401 unless the request carries a logged-in
session. -/
def serve (rt : Runtime) (s : State) : Request → Response × State
  | .login u p => login s u p
  | .call caller c =>
    if caller ∈ s.sessions then handle rt s caller c
    else ({ code := 401, body := Body.error "Unauthorized" }, s)

/-- The store after a sequence of requests, each served at its own time. -/
def run (s : State) : List (Runtime × Request) → State
  | [] => s
  | (rt, req) :: rest => run (serve rt s req).2 rest

/-- The states the API can reach from the freshly set up store. -/
def Reachable (s : State) : Prop :=
  ∃ trace : List (Runtime × Request), run initialState trace = s

/-! ## Primary keys -/

/-- The primary key of `vehicles`: no two rows share an id. -/
def vehicleIdsUnique (s : State) : Prop :=
  (s.vehicles.map (fun v => v.id)).Nodup

/-- The primary key of `share_requests`: no two rows share an id. -/
def requestIdsUnique (s : State) : Prop :=
  (s.share_requests.map (fun r => r.id)).Nodup

/-- The primary key of `users`: no two rows share an id. -/
def userIdsUnique (s : State) : Prop :=
  (s.users.map (fun u => u.id)).Nodup

/-- Spec wording (section 4.2): the owner name of a vehicle for the admin list, resolved by
a lookup against the users; unset (NULL) when no user has the id `owner_id`. -/
def ownerUsername (s : State) (v : Vehicle) : JsVal :=
  match s.users.find? (fun u => decide (u.id = v.owner_id)) with
  | some u => JsVal.str u.username
  | none => JsVal.null

/-- The share grants of one (vehicle id, granting user id, recipient user id) triple. -/
def grantsFor (s : State) (vehicle_id shared_by_user_id shared_to_user_id : Nat) :
    List VehicleShare :=
  s.vehicle_shares.filter (fun g =>
    decide (g.vehicle_id = vehicle_id) && decide (g.shared_by_user_id = shared_by_user_id) &&
      decide (g.shared_to_user_id = shared_to_user_id))

/-- Spec wording (section 3 and C13): the caller can see the vehicle, as its owner, as the
holder of a grant on it, or as admin. -/
def canSee (s : State) (caller : Session) (vehicleId : Nat) : Bool :=
  decide (caller.role = "admin") ||
  s.vehicles.any (fun v => decide (v.id = vehicleId) && decide (v.owner_id = caller.userId)) ||
  s.vehicle_shares.any (fun g =>
    decide (g.vehicle_id = vehicleId) && decide (g.shared_to_user_id = caller.userId))

/-- Every share grant has the triple of a share request whose status is accepted. -/
def grantsBacked (s : State) : Prop :=
  ∀ g ∈ s.vehicle_shares, ∃ r ∈ s.share_requests,
    r.vehicle_id = g.vehicle_id ∧ r.shared_by_user_id = g.shared_by_user_id ∧
    r.shared_to_user_id = g.shared_to_user_id ∧ r.status = "accepted"

/-- The autoincrement counter of `vehicles` is at least every id in the table. -/
def vehicleIdsBelowSeq (s : State) : Prop :=
  ∀ v ∈ s.vehicles, v.id ≤ s.vehicles_seq

/-! ## Example sessions, bodies and request sequences -/

/-- A runtime at time 0 on which no stored date text parses. -/
def rt0 : Runtime := { now := 0, newDate := fun _ => none }

/-- A vehicle form as the front end posts it. -/
def carBody : VehicleBody :=
  { ownerName := JsVal.str "Alice", idNumber := JsVal.str "A-1", plateNumber := JsVal.str "P-1",
    permitExpiryDate := JsVal.str "", modelYear := JsVal.str "2020",
    vehicleName := JsVal.str "Van", category := JsVal.str "Private",
    isOnHold := JsVal.bool false }

/-- The session of the default admin (user 1). -/
def adminSession : Session := { userId := 1, role := "admin" }

/-- The session of the first created user (user 2), a regular user. -/
def aliceSession : Session := { userId := 2, role := "user" }

/-- The session of the second created user (user 3), a regular user. -/
def bobSession : Session := { userId := 3, role := "user" }

/-- The admin logs in and creates the users alice and bob, both log in, and alice creates
vehicle 1. -/
def setupTrace : List (Runtime × Request) :=
  [(rt0, Request.login "admin" "admin789"),
   (rt0, Request.call adminSession (Call.postUser "alice" "pw-a" "")),
   (rt0, Request.call adminSession (Call.postUser "bob" "pw-b" "")),
   (rt0, Request.login "alice" "pw-a"),
   (rt0, Request.login "bob" "pw-b"),
   (rt0, Request.call aliceSession (Call.postVehicle carBody))]

/-- After the setup, alice posts a share request for her vehicle 1 addressed to herself and
accepts it. -/
def selfShareTrace : List (Runtime × Request) :=
  setupTrace ++
  [(rt0, Request.call aliceSession
      (Call.postShareRequests (fun _ _ => none) (some [1]) (some [2]))),
   (rt0, Request.call aliceSession (Call.acceptShareRequest 1))]

/-- After the setup, alice twice posts a share request for vehicle 1 addressed to bob, and
bob accepts both requests. -/
def doubleGrantTrace : List (Runtime × Request) :=
  setupTrace ++
  [(rt0, Request.call aliceSession
      (Call.postShareRequests (fun _ _ => none) (some [1]) (some [3]))),
   (rt0, Request.call aliceSession
      (Call.postShareRequests (fun _ _ => none) (some [1]) (some [3]))),
   (rt0, Request.call bobSession (Call.acceptShareRequest 1)),
   (rt0, Request.call bobSession (Call.acceptShareRequest 2))]

/-- A store with three vehicles: 1 owned by user 2, 2 owned by user 3 and shared to user 2,
3 owned by user 3 and shared to nobody; request 1 (vehicle 3, from 3 to 2) is pending and
request 2 (vehicle 2, from 3 to 2) is accepted. -/
def demoState : State where
  vehicles :=
    [{ id := 1, ownerName := JsVal.str "Alice", idNumber := JsVal.null,
       plateNumber := JsVal.str "P-1", permitExpiryDate := JsVal.str "2030-01-01",
       modelYear := JsVal.null, vehicleName := JsVal.str "Van", category := JsVal.null,
       status := JsVal.null, isOnHold := JsVal.num 0, owner_id := 2 },
     { id := 2, ownerName := JsVal.str "Bob", idNumber := JsVal.null,
       plateNumber := JsVal.str "P-2", permitExpiryDate := JsVal.str "2030-01-01",
       modelYear := JsVal.null, vehicleName := JsVal.str "Bus", category := JsVal.null,
       status := JsVal.null, isOnHold := JsVal.num 1, owner_id := 3 },
     { id := 3, ownerName := JsVal.str "Bob", idNumber := JsVal.null,
       plateNumber := JsVal.str "P-3", permitExpiryDate := JsVal.str "",
       modelYear := JsVal.null, vehicleName := JsVal.str "Car", category := JsVal.null,
       status := JsVal.null, isOnHold := JsVal.num 0, owner_id := 3 }]
  vehicle_shares := [{ id := 1, vehicle_id := 2, shared_by_user_id := 3, shared_to_user_id := 2 }]
  share_requests :=
    [{ id := 1, vehicle_id := 3, shared_by_user_id := 3, shared_to_user_id := 2,
       status := "pending", created_at := 5, updated_at := 5 },
     { id := 2, vehicle_id := 2, shared_by_user_id := 3, shared_to_user_id := 2,
       status := "accepted", created_at := 1, updated_at := 2 }]
  users :=
    [{ id := 1, username := "admin", password := "admin789", role := "admin" },
     { id := 2, username := "alice", password := "pw-a", role := "user" },
     { id := 3, username := "bob", password := "pw-b", role := "user" }]
  vehicles_seq := 3
  vehicle_shares_seq := 1
  share_requests_seq := 2
  users_seq := 3
  sessions := [adminSession, aliceSession, bobSession]

/-- The pending request of the example store: request 1, for vehicle 3, from user 3 to
user 2. -/
def demoRequest : ShareRequest :=
  { id := 1, vehicle_id := 3, shared_by_user_id := 3, shared_to_user_id := 2,
    status := "pending", created_at := 5, updated_at := 5 }

/-- The accepted request of the example store: request 2, for vehicle 2, from user 3 to
user 2. -/
def demoAccepted : ShareRequest :=
  { id := 2, vehicle_id := 2, shared_by_user_id := 3, shared_to_user_id := 2,
    status := "accepted", created_at := 1, updated_at := 2 }

/-- After the setup, bob, who neither owns vehicle 1 nor holds a grant on it, posts a
share request for vehicle 1 addressed to himself and accepts it. -/
def strangerShareTrace : List (Runtime × Request) :=
  setupTrace ++
  [(rt0, Request.call bobSession
      (Call.postShareRequests (fun _ _ => none) (some [1]) (some [3]))),
   (rt0, Request.call bobSession (Call.acceptShareRequest 1))]

/-- After the setup, alice posts a share request for her vehicle 1 addressed to bob and
then deletes the vehicle. -/
def orphanRequestTrace : List (Runtime × Request) :=
  setupTrace ++
  [(rt0, Request.call aliceSession
      (Call.postShareRequests (fun _ _ => none) (some [1]) (some [3]))),
   (rt0, Request.call aliceSession (Call.deleteVehicle 1))]

/-- After the setup, alice posts a share request for her vehicle 1 addressed to the admin
(user 1). -/
def adminShareTrace : List (Runtime × Request) :=
  setupTrace ++
  [(rt0, Request.call aliceSession
      (Call.postShareRequests (fun _ _ => none) (some [1]) (some [1])))]

/-- The vehicle 3 of the example store, owned by user 3. -/
def demoCar : Vehicle :=
  { id := 3, ownerName := JsVal.str "Bob", idNumber := JsVal.null,
    plateNumber := JsVal.str "P-3", permitExpiryDate := JsVal.str "",
    modelYear := JsVal.null, vehicleName := JsVal.str "Car", category := JsVal.null,
    status := JsVal.null, isOnHold := JsVal.num 0, owner_id := 3 }

/-- The user row of bob (user 3) in the example store. -/
def demoBob : User :=
  { id := 3, username := "bob", password := "pw-b", role := "user" }

/-- A vehicle form posted together with an id, an owner id and a status of the choice of
the client. -/
def forgedJson : VehicleJson :=
  { ownerName := JsVal.str "Mallory", idNumber := JsVal.str "M-1",
    plateNumber := JsVal.str "P-9", permitExpiryDate := JsVal.str "2031-05-01",
    modelYear := JsVal.str "2021", vehicleName := JsVal.str "Truck",
    category := JsVal.str "Private", isOnHold := JsVal.str "yes",
    id := JsVal.num 1, owner_id := JsVal.num 1, status := JsVal.str "Valid" }

/-! # Theorems -/

/-! ## Status derivation -/

/-- The ceiling of a quotient by the length of a day, in integer arithmetic. -/
theorem ceil_day_quotient (t : Int) :
    Int.ceil ((t : ℚ) / 86400000) = -((-t) / 86400000) := by
  have h : ((t : ℚ) / 86400000) = -(((-t : Int) : ℚ) / ((86400000 : ℕ) : ℚ)) := by
    push_cast; ring
  rw [h, Int.ceil_neg, Rat.floor_intCast_div_natCast]
  norm_num

/-- The day count of the code is the `daysRemaining` of the spec. -/
theorem mathCeilDiv_some (e now : Int) :
    mathCeilDiv (some (e - now)) (1000 * 60 * 60 * 24) = some (daysRemaining e now) := by
  simp only [mathCeilDiv, daysRemaining, Option.map_some']
  norm_num

/-- The status of a vehicle that is not on hold and whose expiry date parses. -/
theorem calculateStatus_of_date (rt : Runtime) (expiryDate onHold : JsVal) (e : Int)
    (hh : onHold.truthy = false) (he : rt.newDate expiryDate = some e) :
    calculateStatus rt expiryDate onHold =
      if daysRemaining e rt.now < 0 then "Invalid"
      else if daysRemaining e rt.now ≤ 10 then "Expiring Soon"
      else "Valid" := by
  simp only [calculateStatus, hh, he, Option.map_some', mathCeilDiv_some, jsLt, jsLe]
  simp

/-- C1: a vehicle on hold has status On Hold, whatever the expiry date is (parsable or not)
and whatever the current time is. -/
theorem calculateStatus_onHold (rt : Runtime) (expiryDate onHold : JsVal)
    (h : onHold.truthy = true) :
    calculateStatus rt expiryDate onHold = "On Hold" := by
  simp [calculateStatus, h]

/-- Witness of C1: a hold flag `true` with an expiry text that does not parse. -/
theorem calculateStatus_onHold_witness :
    JsVal.truthy (JsVal.bool true) = true ∧
    calculateStatus { now := 0, newDate := fun _ => none } (JsVal.str "") (JsVal.bool true)
      = "On Hold" :=
  ⟨rfl, calculateStatus_onHold _ _ _ rfl⟩

/-- C2: for a vehicle not on hold whose expiry date parses, the status follows
`daysRemaining = ceil((expiry - now) / 1 day)`: Invalid below 0, Expiring Soon from 0 to 10,
Valid above 10; an expiry of now - 1 day is Invalid, now + 5 days and now + 10 days are
Expiring Soon, now + 11 days and now + 30 days are Valid. -/
theorem calculateStatus_by_daysRemaining (rt : Runtime) (expiryDate onHold : JsVal) (e : Int)
    (hh : onHold.truthy = false) (he : rt.newDate expiryDate = some e) :
    (daysRemaining e rt.now < 0 → calculateStatus rt expiryDate onHold = "Invalid") ∧
    (0 ≤ daysRemaining e rt.now → daysRemaining e rt.now ≤ 10 →
      calculateStatus rt expiryDate onHold = "Expiring Soon") ∧
    (10 < daysRemaining e rt.now → calculateStatus rt expiryDate onHold = "Valid") ∧
    (e = rt.now - days 1 → calculateStatus rt expiryDate onHold = "Invalid") ∧
    (e = rt.now + days 5 → calculateStatus rt expiryDate onHold = "Expiring Soon") ∧
    (e = rt.now + days 10 → calculateStatus rt expiryDate onHold = "Expiring Soon") ∧
    (e = rt.now + days 11 → calculateStatus rt expiryDate onHold = "Valid") ∧
    (e = rt.now + days 30 → calculateStatus rt expiryDate onHold = "Valid") := by
  rw [calculateStatus_of_date rt expiryDate onHold e hh he]
  have hd : ∀ k : Int, e = rt.now + days k → daysRemaining e rt.now = k := by
    intro k hk
    rw [daysRemaining, ceil_day_quotient, hk, days]
    omega
  refine ⟨?_, ?_, ?_, ?_, ?_, ?_, ?_, ?_⟩
  · intro h; simp [h]
  · intro h0 h10; simp [h10, not_lt.mpr h0]
  · intro h; simp [not_le.mpr h, not_lt.mpr (le_trans (by decide : (0 : Int) ≤ 10) h.le)]
  · intro h
    have := hd (-1) (by rw [h, days, days]; ring)
    simp [this]
  · intro h; simp [hd 5 h]
  · intro h; simp [hd 10 h]
  · intro h; simp [hd 11 h]
  · intro h; simp [hd 30 h]

/-- Witness of C2: the current time is 1000 and the stored date parses to five days later. -/
theorem calculateStatus_by_daysRemaining_witness :
    JsVal.truthy (JsVal.num 0) = false ∧
    (some (1000 + days 5) : Option Int) = some (1000 + days 5) ∧
    calculateStatus { now := 1000, newDate := fun _ => some (1000 + days 5) }
      (JsVal.str "2030-01-06") (JsVal.num 0) = "Expiring Soon" :=
  ⟨rfl, rfl,
   (calculateStatus_by_daysRemaining { now := 1000, newDate := fun _ => some (1000 + days 5) }
      (JsVal.str "2030-01-06") (JsVal.num 0) (1000 + days 5) rfl rfl).2.2.2.2.1 rfl⟩

/-! ## Access resolution -/

/-- The id of a listed row is the id of the vehicle it was built from. -/
theorem withStatus_id (rt : Runtime) (v : Vehicle) : (withStatus rt v).id = v.id := rfl

/-- The rows of the non-admin UNION query. -/
theorem mem_sqlUnion_rows (s : State) (userId : Nat) (r : Vehicle × String) :
    r ∈ sqlUnion (ownedRows s userId) (sharedRows s userId) ↔
      r.1 ∈ s.vehicles ∧
      ((r.2 = "owner" ∧ r.1.owner_id = userId) ∨
       (r.2 = "shared" ∧ ∃ g ∈ s.vehicle_shares,
          g.vehicle_id = r.1.id ∧ g.shared_to_user_id = userId)) := by
  obtain ⟨v, tag⟩ := r
  simp only [sqlUnion, List.mem_dedup, List.mem_append, ownedRows, sharedRows, List.mem_map,
    List.mem_filter, List.mem_flatMap, decide_eq_true_eq, Bool.and_eq_true, Prod.mk.injEq]
  constructor
  · rintro (⟨w, ⟨hw, ho⟩, rfl, rfl⟩ | ⟨w, hw, g, ⟨hg, hid, hto⟩, rfl, rfl⟩)
    · exact ⟨hw, Or.inl ⟨rfl, ho⟩⟩
    · exact ⟨hw, Or.inr ⟨rfl, g, hg, hid.symm, hto⟩⟩
  · rintro ⟨hv, (⟨rfl, ho⟩ | ⟨rfl, g, hg, hid, hto⟩)⟩
    · exact Or.inl ⟨v, ⟨hv, ho⟩, rfl, rfl⟩
    · exact Or.inr ⟨v, hv, g, ⟨hg, hid.symm, hto⟩, rfl, rfl⟩

/-- C3: for a non-admin caller the vehicle ids listed by GET /api/vehicles are exactly the
ids of the vehicles the caller owns together with the ids of the vehicles that have a
vehicle_shares row addressed to the caller; a row is listed exactly when it is an owned
vehicle tagged owner or a granted vehicle tagged shared. -/
theorem getVehicles_nonadmin_exact (rt : Runtime) (s : State) (caller : Session)
    (h : caller.role ≠ "admin") :
    (∀ id : Nat, id ∈ (getVehicles rt s caller).map (fun row => row.vehicle.id) ↔
      ((∃ v ∈ s.vehicles, v.id = id ∧ v.owner_id = caller.userId) ∨
       (∃ v ∈ s.vehicles, v.id = id ∧ ∃ g ∈ s.vehicle_shares,
          g.vehicle_id = v.id ∧ g.shared_to_user_id = caller.userId))) ∧
    (∀ row : VehicleRow, row ∈ getVehicles rt s caller ↔
      ∃ v ∈ s.vehicles,
        row = { vehicle := withStatus rt v, access_level := row.access_level,
                owner_username := JsVal.undefined } ∧
        ((row.access_level = "owner" ∧ v.owner_id = caller.userId) ∨
         (row.access_level = "shared" ∧ ∃ g ∈ s.vehicle_shares,
            g.vehicle_id = v.id ∧ g.shared_to_user_id = caller.userId))) := by
  have hrow : ∀ row : VehicleRow, row ∈ getVehicles rt s caller ↔
      ∃ v ∈ s.vehicles,
        row = { vehicle := withStatus rt v, access_level := row.access_level,
                owner_username := JsVal.undefined } ∧
        ((row.access_level = "owner" ∧ v.owner_id = caller.userId) ∨
         (row.access_level = "shared" ∧ ∃ g ∈ s.vehicle_shares,
            g.vehicle_id = v.id ∧ g.shared_to_user_id = caller.userId)) := by
    intro row
    simp only [getVehicles, h, if_false, List.mem_map, mem_sqlUnion_rows]
    constructor
    · rintro ⟨⟨v, tag⟩, ⟨hv, hcase⟩, rfl⟩
      exact ⟨v, hv, rfl, hcase⟩
    · rintro ⟨v, hv, hrow, hcase⟩
      exact ⟨(v, row.access_level), ⟨hv, hcase⟩, hrow.symm⟩
  refine ⟨?_, hrow⟩
  intro id
  simp only [List.mem_map]
  constructor
  · rintro ⟨row, hmem, rfl⟩
    obtain ⟨v, hv, hr, hcase⟩ := (hrow row).mp hmem
    have hid : row.vehicle.id = v.id := by rw [hr]; rfl
    rcases hcase with ⟨_, ho⟩ | ⟨_, hg⟩
    · exact Or.inl ⟨v, hv, hid.symm, ho⟩
    · exact Or.inr ⟨v, hv, hid.symm, hg⟩
  · rintro (⟨v, hv, rfl, ho⟩ | ⟨v, hv, rfl, hg⟩)
    · exact ⟨{ vehicle := withStatus rt v, access_level := "owner",
               owner_username := JsVal.undefined },
        (hrow _).mpr ⟨v, hv, rfl, Or.inl ⟨rfl, ho⟩⟩, rfl⟩
    · exact ⟨{ vehicle := withStatus rt v, access_level := "shared",
               owner_username := JsVal.undefined },
        (hrow _).mpr ⟨v, hv, rfl, Or.inr ⟨rfl, hg⟩⟩, rfl⟩

/-- Witness of C3: in the example store user 2 is listed vehicle 3 exactly if user 2 owns
it or holds a grant on it. -/
theorem getVehicles_nonadmin_exact_witness :
    aliceSession.role ≠ "admin" ∧
    (3 ∈ (getVehicles rt0 demoState aliceSession).map (fun row => row.vehicle.id) ↔
      ((∃ v ∈ demoState.vehicles, v.id = 3 ∧ v.owner_id = aliceSession.userId) ∨
       (∃ v ∈ demoState.vehicles, v.id = 3 ∧ ∃ g ∈ demoState.vehicle_shares,
          g.vehicle_id = v.id ∧ g.shared_to_user_id = aliceSession.userId))) :=
  ⟨by decide, (getVehicles_nonadmin_exact rt0 demoState aliceSession (by decide)).1 3⟩

/-- C4: GET /api/vehicles lists a vehicle twice for a non-admin user in a reachable state.
Alice owns vehicle 1, posts a share request for it addressed to herself and accepts it;
her list then has vehicle 1 as an owner row and again as a shared row, because the UNION
compares the tag column too. -/
theorem getVehicles_lists_owned_and_shared_twice :
    Reachable (run initialState selfShareTrace) ∧
    aliceSession.role ≠ "admin" ∧
    (getVehicles rt0 (run initialState selfShareTrace) aliceSession).map
        (fun row => (row.vehicle.id, row.access_level)) = [(1, "owner"), (1, "shared")] ∧
    ¬ ((getVehicles rt0 (run initialState selfShareTrace) aliceSession).map
        (fun row => row.vehicle.id)).Nodup :=
  ⟨⟨selfShareTrace, rfl⟩, by decide, by decide, by decide⟩

/-! ## Ownership-gated mutation -/

/-- A keyed lookup on a table without duplicate keys returns the row that holds the key. -/
theorem find_of_unique_key {α : Type} (key : α → Nat) (p : α → Bool) :
    ∀ (l : List α), (l.map key).Nodup → ∀ a ∈ l, p a = true →
      l.find? (fun x => decide (key x = key a) && p x) = some a := by
  intro l
  induction l with
  | nil => intro _ a ha; cases ha
  | cons x xs ih =>
    intro hnd a ha hp
    rw [List.map_cons, List.nodup_cons] at hnd
    rcases List.mem_cons.mp ha with rfl | hmem
    · simp [List.find?_cons, hp]
    · have hne : key x ≠ key a := by
        intro heq
        exact hnd.1 (heq ▸ List.mem_map_of_mem key hmem)
      simp only [List.find?_cons, hne, decide_False, Bool.false_and]
      exact ih hnd.2 a hmem hp

/-- The ownership check finds the vehicle that holds the id. -/
theorem find_vehicle (s : State) (hu : vehicleIdsUnique s) (v : Vehicle) (hv : v ∈ s.vehicles) :
    s.vehicles.find? (fun w => decide (w.id = v.id)) = some v := by
  have h := find_of_unique_key (fun w : Vehicle => w.id) (fun _ => true) s.vehicles hu v hv rfl
  simpa using h

/-- The ownership check finds nothing when no vehicle holds the id. -/
theorem find_vehicle_none (s : State) (id : Nat) (h : ∀ v ∈ s.vehicles, v.id ≠ id) :
    s.vehicles.find? (fun w => decide (w.id = id)) = none := by
  rw [List.find?_eq_none]
  intro v hv
  simpa using h v hv

/-- C5: PUT and DELETE /api/vehicles/:id answer 404 when no vehicle has the id, whoever
calls; they answer 403 when the vehicle exists and the caller is neither admin nor its
owner; in both cases the store is unchanged; and when the caller is admin or the owner the
UPDATE rewrites the row of that id (each descriptive column takes what its TEXT column
gives back for the posted value, isOnHold takes 1 or 0, id, owner_id and status stay) and
the DELETE removes it, leaving every other row. -/
theorem vehicle_mutation_contract (rt : Runtime) (s : State) (caller : Session) (id : Nat)
    (b : VehicleBody) (hu : vehicleIdsUnique s) :
    ((∀ v ∈ s.vehicles, v.id ≠ id) →
      (putVehicle rt s caller id b).1.code = 404 ∧ (putVehicle rt s caller id b).2 = s ∧
      (deleteVehicle s caller id).1.code = 404 ∧ (deleteVehicle s caller id).2 = s) ∧
    (∀ v ∈ s.vehicles, v.id = id → caller.role ≠ "admin" → v.owner_id ≠ caller.userId →
      (putVehicle rt s caller id b).1.code = 403 ∧ (putVehicle rt s caller id b).2 = s ∧
      (deleteVehicle s caller id).1.code = 403 ∧ (deleteVehicle s caller id).2 = s) ∧
    (∀ v ∈ s.vehicles, v.id = id → (caller.role = "admin" ∨ v.owner_id = caller.userId) →
      (putVehicle rt s caller id b).1.code = 200 ∧
      (putVehicle rt s caller id b).2.vehicles = s.vehicles.map (updateRow rt id b) ∧
      { v with ownerName := rt.textColumn b.ownerName, idNumber := rt.textColumn b.idNumber,
               plateNumber := rt.textColumn b.plateNumber,
               permitExpiryDate := rt.textColumn b.permitExpiryDate,
               modelYear := rt.textColumn b.modelYear,
               vehicleName := rt.textColumn b.vehicleName,
               category := rt.textColumn b.category,
               isOnHold := holdFlag b.isOnHold } ∈ (putVehicle rt s caller id b).2.vehicles ∧
      (∀ w : Vehicle, w.id ≠ id →
        (w ∈ (putVehicle rt s caller id b).2.vehicles ↔ w ∈ s.vehicles)) ∧
      (deleteVehicle s caller id).1.code = 200 ∧
      (∀ w : Vehicle, w ∈ (deleteVehicle s caller id).2.vehicles ↔ (w ∈ s.vehicles ∧ w.id ≠ id))) := by
  refine ⟨?_, ?_, ?_⟩
  · intro hnone
    simp [putVehicle, deleteVehicle, find_vehicle_none s id hnone]
  · intro v hv hid hrole hown
    subst hid
    simp [putVehicle, deleteVehicle, find_vehicle s hu v hv, hrole, hown]
  · intro v hv hid hok
    subst hid
    have hguard : ¬ (caller.role ≠ "admin" ∧ v.owner_id ≠ caller.userId) := by
      rintro ⟨h1, h2⟩
      rcases hok with h | h
      · exact h1 h
      · exact h2 h
    have hput : putVehicle rt s caller v.id b =
        ({ code := 200,
           body := Body.updated ((s.vehicles.filter (fun w => decide (w.id = v.id))).length)
                     (calculateStatus rt b.permitExpiryDate b.isOnHold) },
         { s with vehicles := s.vehicles.map (updateRow rt v.id b) }) := by
      simp only [putVehicle, find_vehicle s hu v hv, if_neg hguard]
    have hdel : deleteVehicle s caller v.id =
        ({ code := 200,
           body := Body.deleted ((s.vehicles.filter (fun w => decide (w.id = v.id))).length) },
         { s with vehicles := s.vehicles.filter (fun w => !decide (w.id = v.id)) }) := by
      simp only [deleteVehicle, find_vehicle s hu v hv, if_neg hguard]
    rw [hput, hdel]
    refine ⟨rfl, rfl, ?_, ?_, rfl, ?_⟩
    · refine List.mem_map.mpr ⟨v, hv, ?_⟩
      simp [updateRow]
    · intro w hw
      simp only [List.mem_map]
      constructor
      · rintro ⟨x, hx, rfl⟩
        by_cases hxid : x.id = v.id
        · exfalso
          apply hw
          simp [updateRow, hxid]
        · simpa [updateRow, hxid] using hx
      · intro hmem
        exact ⟨w, hmem, by simp [updateRow, hw]⟩
    · intro w
      simp [List.mem_filter]

/-- Witness of C5 on the example store: an id no vehicle has (404), user 2 on vehicle 2 of
user 3 (403), and user 3 on the own vehicle 2 (200). -/
theorem vehicle_mutation_contract_witness :
    vehicleIdsUnique demoState ∧
    ((putVehicle rt0 demoState aliceSession 9 carBody).1.code = 404 ∧
      (putVehicle rt0 demoState aliceSession 9 carBody).2 = demoState ∧
      (deleteVehicle demoState aliceSession 9).1.code = 404 ∧
      (deleteVehicle demoState aliceSession 9).2 = demoState) ∧
    ((putVehicle rt0 demoState aliceSession 2 carBody).1.code = 403 ∧
      (putVehicle rt0 demoState aliceSession 2 carBody).2 = demoState ∧
      (deleteVehicle demoState aliceSession 2).1.code = 403 ∧
      (deleteVehicle demoState aliceSession 2).2 = demoState) ∧
    ((putVehicle rt0 demoState bobSession 2 carBody).1.code = 200 ∧
      (deleteVehicle demoState bobSession 2).1.code = 200) :=
  have hu : vehicleIdsUnique demoState := by unfold vehicleIdsUnique; decide
  have h3 := (vehicle_mutation_contract rt0 demoState bobSession 2 carBody hu).2.2
    (demoState.vehicles.get ⟨1, by decide⟩) (by decide) rfl (Or.inr rfl)
  ⟨hu,
   (vehicle_mutation_contract rt0 demoState aliceSession 9 carBody hu).1 (by decide),
   (vehicle_mutation_contract rt0 demoState aliceSession 2 carBody hu).2.1
     (demoState.vehicles.get ⟨1, by decide⟩) (by decide) rfl (by decide) (by decide),
   h3.1, h3.2.2.2.2.1⟩

/-- C6: POST /api/restore lets a user who is neither admin nor owner remove a vehicle.
After the setup vehicle 1 belongs to user 2; user 3, a regular user, posts an empty array to
/api/restore, the call answers 200 and the vehicle table is empty. -/
theorem restore_by_other_user_removes_vehicle :
    Reachable (run initialState setupTrace) ∧
    (∃ v ∈ (run initialState setupTrace).vehicles, v.id = 1 ∧ v.owner_id = 2) ∧
    bobSession ∈ (run initialState setupTrace).sessions ∧
    bobSession.role ≠ "admin" ∧ bobSession.userId ≠ 2 ∧
    (serve rt0 (run initialState setupTrace)
      (Request.call bobSession (Call.postRestore (some [])))).1.code = 200 ∧
    (serve rt0 (run initialState setupTrace)
      (Request.call bobSession (Call.postRestore (some [])))).2.vehicles = [] :=
  ⟨⟨setupTrace, rfl⟩, by decide, by decide, by decide, by decide, by decide, by decide⟩

/-! ## Sharing workflow -/

/-- Every id of a table is below the next autoincrement id. -/
theorem lt_freshId (ids : List Nat) (seq : Nat) : ∀ x ∈ ids, x < freshId ids seq := by
  have hmax : ∀ (l : List Nat), ∀ x ∈ l, x ≤ l.foldr max 0 := by
    intro l
    induction l with
    | nil => intro x hx; cases hx
    | cons y ys ih =>
      intro x hx
      rw [List.foldr_cons]
      rcases List.mem_cons.mp hx with rfl | hmem
      · exact le_max_left _ _
      · exact le_trans (ih x hmem) (le_max_right _ _)
  intro x hx
  have h1 := hmax ids x hx
  have h2 : ids.foldr max 0 ≤ max seq (ids.foldr max 0) := le_max_right _ _
  unfold freshId
  omega

/-- The INSERT OR IGNORE of a grant never meets a taken id, so it always appends a row. -/
theorem insertOrIgnoreShare_eq (s : State) (vid byId toId : Nat) :
    insertOrIgnoreShare s vid byId toId =
      { s with
        vehicle_shares := s.vehicle_shares ++
          [{ id := freshId (s.vehicle_shares.map (fun g => g.id)) s.vehicle_shares_seq,
             vehicle_id := vid, shared_by_user_id := byId, shared_to_user_id := toId }]
        vehicle_shares_seq := freshId (s.vehicle_shares.map (fun g => g.id)) s.vehicle_shares_seq } := by
  have hfree : s.vehicle_shares.any (fun g =>
      decide (g.id = freshId (s.vehicle_shares.map (fun g => g.id)) s.vehicle_shares_seq)) = false := by
    rw [List.any_eq_false]
    intro g hg
    have := lt_freshId (s.vehicle_shares.map (fun g => g.id)) s.vehicle_shares_seq g.id
      (List.mem_map_of_mem (fun g : VehicleShare => g.id) hg)
    simp only [decide_eq_true_eq]
    omega
  simp only [insertOrIgnoreShare, hfree]
  rfl

/-- The recipient lookup finds the request that holds the id when it is addressed to the
caller. -/
theorem findRequest_of_mem (s : State) (hk : requestIdsUnique s) (r : ShareRequest)
    (hr : r ∈ s.share_requests) (userId : Nat) (hto : r.shared_to_user_id = userId) :
    findRequest s r.id userId = some r :=
  find_of_unique_key (fun q : ShareRequest => q.id)
    (fun q => decide (q.shared_to_user_id = userId)) s.share_requests hk r hr (by simpa using hto)

/-- The recipient lookup finds nothing when no request with the id is addressed to the
caller. -/
theorem findRequest_none (s : State) (requestId userId : Nat)
    (h : ∀ r ∈ s.share_requests, r.id = requestId → r.shared_to_user_id ≠ userId) :
    findRequest s requestId userId = none := by
  unfold findRequest
  rw [List.find?_eq_none]
  intro r hr
  simp only [Bool.and_eq_true, decide_eq_true_eq, not_and]
  exact h r hr

/-- The status UPDATE keeps the id of every row. -/
theorem setStatus_id (rt : Runtime) (requestId : Nat) (st : String) (r : ShareRequest) :
    (setStatus rt requestId st r).id = r.id := by
  unfold setStatus
  split <;> rfl

/-- The status UPDATE keeps the primary key of the table. -/
theorem map_setStatus_ids (rt : Runtime) (requestId : Nat) (st : String)
    (l : List ShareRequest) :
    (l.map (setStatus rt requestId st)).map (fun r => r.id) = l.map (fun r => r.id) := by
  rw [List.map_map]
  apply List.map_congr_left
  intro r _
  exact setStatus_id rt requestId st r

/-- The store after a successful accept: the UPDATE followed by the grant INSERT. -/
theorem acceptShareRequest_pending (rt : Runtime) (s : State) (caller : Session)
    (r : ShareRequest) (hk : requestIdsUnique s) (hr : r ∈ s.share_requests)
    (hto : r.shared_to_user_id = caller.userId) (hp : r.status = "pending") :
    acceptShareRequest rt s caller r.id =
      ({ code := 200, body := Body.success },
       { s with
         share_requests := s.share_requests.map (setStatus rt r.id "accepted")
         vehicle_shares := s.vehicle_shares ++
           [{ id := freshId (s.vehicle_shares.map (fun g => g.id)) s.vehicle_shares_seq,
              vehicle_id := r.vehicle_id, shared_by_user_id := r.shared_by_user_id,
              shared_to_user_id := r.shared_to_user_id }]
         vehicle_shares_seq :=
           freshId (s.vehicle_shares.map (fun g => g.id)) s.vehicle_shares_seq }) := by
  simp only [acceptShareRequest, findRequest_of_mem s hk r hr caller.userId hto, hp,
    ne_eq, not_true_eq_false, if_false, insertOrIgnoreShare_eq]

/-- Membership in a table after the status UPDATE, for rows with another id. -/
theorem mem_map_setStatus_of_ne (rt : Runtime) (requestId : Nat) (st : String)
    (l : List ShareRequest) (q : ShareRequest) (hq : q.id ≠ requestId) :
    q ∈ l.map (setStatus rt requestId st) ↔ q ∈ l := by
  simp only [List.mem_map]
  constructor
  · rintro ⟨x, hx, rfl⟩
    by_cases hxid : x.id = requestId
    · exact absurd (by rw [setStatus_id]; exact hxid) hq
    · simpa [setStatus, hxid] using hx
  · intro hmem
    exact ⟨q, hmem, by simp [setStatus, hq]⟩

/-- C7: accepting a pending request addressed to the caller answers 200; afterwards the
request has status accepted, a vehicle_shares row with the triple of the request exists,
and every other share request is unchanged. -/
theorem accept_pending_request (rt : Runtime) (s : State) (caller : Session)
    (r : ShareRequest) (hk : requestIdsUnique s) (hr : r ∈ s.share_requests)
    (hto : r.shared_to_user_id = caller.userId) (hp : r.status = "pending") :
    (acceptShareRequest rt s caller r.id).1 = { code := 200, body := Body.success } ∧
    { r with status := "accepted", updated_at := rt.now } ∈
      (acceptShareRequest rt s caller r.id).2.share_requests ∧
    (∀ q ∈ (acceptShareRequest rt s caller r.id).2.share_requests,
      q.id = r.id → q.status = "accepted") ∧
    (∃ g ∈ (acceptShareRequest rt s caller r.id).2.vehicle_shares,
      g.vehicle_id = r.vehicle_id ∧ g.shared_by_user_id = r.shared_by_user_id ∧
      g.shared_to_user_id = r.shared_to_user_id) ∧
    (∀ q : ShareRequest, q.id ≠ r.id →
      (q ∈ (acceptShareRequest rt s caller r.id).2.share_requests ↔ q ∈ s.share_requests)) ∧
    (acceptShareRequest rt s caller r.id).2.share_requests.length = s.share_requests.length := by
  rw [acceptShareRequest_pending rt s caller r hk hr hto hp]
  refine ⟨rfl, ?_, ?_, ?_, ?_, ?_⟩
  · exact List.mem_map.mpr ⟨r, hr, by simp [setStatus]⟩
  · intro q hq hid
    obtain ⟨x, _, rfl⟩ := List.mem_map.mp hq
    rw [setStatus_id] at hid
    simp [setStatus, hid]
  · exact ⟨_, List.mem_append_right _ (List.mem_singleton.mpr rfl), rfl, rfl, rfl⟩
  · intro q hq
    exact mem_map_setStatus_of_ne rt r.id "accepted" s.share_requests q hq
  · simp

/-- Witness of C7: user 2 accepts the pending request 1 of the example store. -/
theorem accept_pending_request_witness :
    requestIdsUnique demoState ∧ demoRequest ∈ demoState.share_requests ∧
    demoRequest.shared_to_user_id = aliceSession.userId ∧ demoRequest.status = "pending" ∧
    (acceptShareRequest rt0 demoState aliceSession demoRequest.id).1
      = { code := 200, body := Body.success } ∧
    (∃ g ∈ (acceptShareRequest rt0 demoState aliceSession demoRequest.id).2.vehicle_shares,
      g.vehicle_id = demoRequest.vehicle_id ∧
      g.shared_by_user_id = demoRequest.shared_by_user_id ∧
      g.shared_to_user_id = demoRequest.shared_to_user_id) :=
  have hk : requestIdsUnique demoState := by unfold requestIdsUnique; decide
  have h := accept_pending_request rt0 demoState aliceSession demoRequest hk
    (by decide) (by decide) (by decide)
  ⟨hk, by decide, by decide, by decide, h.1, h.2.2.2.1⟩

/-- C8: accept and reject answer 404 Request not found when no request with the id is
addressed to the caller (no such id, or addressed to somebody else: the same response),
and 400 Request already processed when the request is addressed to the caller and its
status is not pending; in each of these cases the whole store, and so the share-request
and share-grant tables, is unchanged. -/
theorem share_decision_failures (rt : Runtime) (s : State) (caller : Session)
    (requestId : Nat) (hk : requestIdsUnique s) :
    ((∀ r ∈ s.share_requests, r.id = requestId → r.shared_to_user_id ≠ caller.userId) →
      acceptShareRequest rt s caller requestId
        = ({ code := 404, body := Body.error "Request not found" }, s) ∧
      rejectShareRequest rt s caller requestId
        = ({ code := 404, body := Body.error "Request not found" }, s)) ∧
    (∀ r ∈ s.share_requests, r.id = requestId → r.shared_to_user_id = caller.userId →
      r.status ≠ "pending" →
      acceptShareRequest rt s caller requestId
        = ({ code := 400, body := Body.error "Request already processed" }, s) ∧
      rejectShareRequest rt s caller requestId
        = ({ code := 400, body := Body.error "Request already processed" }, s)) := by
  refine ⟨?_, ?_⟩
  · intro h
    simp [acceptShareRequest, rejectShareRequest, findRequest_none s requestId caller.userId h]
  · intro r hr hid hto hst
    subst hid
    simp [acceptShareRequest, rejectShareRequest,
      findRequest_of_mem s hk r hr caller.userId hto, hst]

/-- Witness of C8 on the example store: an id no request has and a request addressed to
another user (404 both), and the accepted request 2 decided again by its recipient (400). -/
theorem share_decision_failures_witness :
    requestIdsUnique demoState ∧
    (acceptShareRequest rt0 demoState aliceSession 7
        = ({ code := 404, body := Body.error "Request not found" }, demoState) ∧
      rejectShareRequest rt0 demoState aliceSession 7
        = ({ code := 404, body := Body.error "Request not found" }, demoState)) ∧
    (acceptShareRequest rt0 demoState bobSession 1
        = ({ code := 404, body := Body.error "Request not found" }, demoState) ∧
      rejectShareRequest rt0 demoState bobSession 1
        = ({ code := 404, body := Body.error "Request not found" }, demoState)) ∧
    (acceptShareRequest rt0 demoState aliceSession 2
        = ({ code := 400, body := Body.error "Request already processed" }, demoState) ∧
      rejectShareRequest rt0 demoState aliceSession 2
        = ({ code := 400, body := Body.error "Request already processed" }, demoState)) :=
  have hk : requestIdsUnique demoState := by unfold requestIdsUnique; decide
  ⟨hk,
   (share_decision_failures rt0 demoState aliceSession 7 hk).1 (by decide),
   (share_decision_failures rt0 demoState bobSession 1 hk).1 (by decide),
   (share_decision_failures rt0 demoState aliceSession 2 hk).2 demoAccepted
     (by decide) rfl rfl (by decide)⟩

/-- C9: the grant table holds two rows of one triple in a reachable state.  Alice posts two
share requests for vehicle 1 addressed to bob and bob accepts both; each accept runs INSERT
OR IGNORE on a table whose triple has no UNIQUE constraint, so the second grant is not
ignored. -/
theorem accept_two_requests_gives_two_grants :
    Reachable (run initialState doubleGrantTrace) ∧
    (run initialState doubleGrantTrace).vehicle_shares =
      [{ id := 1, vehicle_id := 1, shared_by_user_id := 2, shared_to_user_id := 3 },
       { id := 2, vehicle_id := 1, shared_by_user_id := 2, shared_to_user_id := 3 }] ∧
    (grantsFor (run initialState doubleGrantTrace) 1 2 3).length = 2 :=
  ⟨⟨doubleGrantTrace, rfl⟩, by decide, by decide⟩

/-- An accept whose lookup returns a request that is not pending answers 400 and leaves
the store. -/
theorem acceptShareRequest_processed (rt : Runtime) (s : State) (caller : Session)
    (requestId : Nat) (q : ShareRequest)
    (hf : findRequest s requestId caller.userId = some q) (hq : q.status ≠ "pending") :
    acceptShareRequest rt s caller requestId
      = ({ code := 400, body := Body.error "Request already processed" }, s) := by
  simp [acceptShareRequest, hf, hq]

/-- C10: when the recipient accepts a pending request twice, the first call answers 200,
the second answers 400 Request already processed and changes nothing, and if no grant for
the triple of the request existed before, exactly one exists afterwards. -/
theorem accept_twice (rt rt2 : Runtime) (s : State) (caller : Session)
    (r : ShareRequest) (hk : requestIdsUnique s) (hr : r ∈ s.share_requests)
    (hto : r.shared_to_user_id = caller.userId) (hp : r.status = "pending") :
    (acceptShareRequest rt s caller r.id).1 = { code := 200, body := Body.success } ∧
    acceptShareRequest rt2 (acceptShareRequest rt s caller r.id).2 caller r.id
      = ({ code := 400, body := Body.error "Request already processed" },
         (acceptShareRequest rt s caller r.id).2) ∧
    (grantsFor s r.vehicle_id r.shared_by_user_id r.shared_to_user_id = [] →
      (grantsFor (acceptShareRequest rt2 (acceptShareRequest rt s caller r.id).2 caller r.id).2
        r.vehicle_id r.shared_by_user_id r.shared_to_user_id).length = 1) := by
  have hfirst := acceptShareRequest_pending rt s caller r hk hr hto hp
  have hk1 : requestIdsUnique (acceptShareRequest rt s caller r.id).2 := by
    rw [hfirst]
    unfold requestIdsUnique
    rw [map_setStatus_ids]
    exact hk
  have hmem : setStatus rt r.id "accepted" r ∈
      (acceptShareRequest rt s caller r.id).2.share_requests := by
    rw [hfirst]
    exact List.mem_map_of_mem _ hr
  have hacc : setStatus rt r.id "accepted" r =
      { r with status := "accepted", updated_at := rt.now } := by
    simp [setStatus]
  have hsecond : acceptShareRequest rt2 (acceptShareRequest rt s caller r.id).2 caller r.id
      = ({ code := 400, body := Body.error "Request already processed" },
         (acceptShareRequest rt s caller r.id).2) := by
    have hfind := findRequest_of_mem (acceptShareRequest rt s caller r.id).2 hk1
      (setStatus rt r.id "accepted" r) hmem caller.userId (by rw [hacc]; exact hto)
    rw [setStatus_id] at hfind
    exact acceptShareRequest_processed rt2 _ caller r.id _ hfind
      (by rw [hacc]; show "accepted" ≠ "pending"; decide)
  refine ⟨by rw [hfirst], hsecond, ?_⟩
  intro hnone
  rw [hsecond, hfirst]
  unfold grantsFor at hnone ⊢
  simp only [List.filter_append, hnone, List.nil_append]
  simp

/-- Witness of C10: user 2 accepts the pending request 1 of the example store twice. -/
theorem accept_twice_witness :
    requestIdsUnique demoState ∧ demoRequest ∈ demoState.share_requests ∧
    demoRequest.shared_to_user_id = aliceSession.userId ∧ demoRequest.status = "pending" ∧
    (acceptShareRequest rt0 demoState aliceSession demoRequest.id).1
      = { code := 200, body := Body.success } ∧
    (acceptShareRequest rt0
        (acceptShareRequest rt0 demoState aliceSession demoRequest.id).2
        aliceSession demoRequest.id).1
      = { code := 400, body := Body.error "Request already processed" } ∧
    (grantsFor
        (acceptShareRequest rt0
          (acceptShareRequest rt0 demoState aliceSession demoRequest.id).2
          aliceSession demoRequest.id).2
        demoRequest.vehicle_id demoRequest.shared_by_user_id
        demoRequest.shared_to_user_id).length = 1 :=
  have hk : requestIdsUnique demoState := by unfold requestIdsUnique; decide
  have h := accept_twice rt0 rt0 demoState aliceSession demoRequest hk
    (by decide) (by decide) (by decide)
  ⟨hk, by decide, by decide, by decide, h.1, congrArg Prod.fst h.2.1, h.2.2 (by decide)⟩

/-! ## The primary keys hold in every reachable state -/

/-- Appending the next autoincrement id keeps the ids distinct. -/
theorem nodup_append_freshId (ids : List Nat) (seq : Nat) (h : ids.Nodup) :
    (ids ++ [freshId ids seq]).Nodup := by
  rw [List.nodup_append]
  refine ⟨h, List.nodup_singleton _, ?_⟩
  intro a ha hb
  rw [List.mem_singleton] at hb
  have := lt_freshId ids seq a ha
  omega

/-- The vehicle UPDATE keeps the id of every row. -/
theorem updateRow_id (rt : Runtime) (id : Nat) (b : VehicleBody) (v : Vehicle) : (updateRow rt id b v).id = v.id := by
  unfold updateRow
  split <;> rfl

/-- One restore INSERT keeps both primary keys. -/
theorem restoreInsert_keys (rt : Runtime) (s : State) (b : VehicleBody)
    (h : vehicleIdsUnique s ∧ requestIdsUnique s) :
    vehicleIdsUnique (restoreInsert rt s b) ∧ requestIdsUnique (restoreInsert rt s b) := by
  refine ⟨?_, h.2⟩
  unfold vehicleIdsUnique restoreInsert
  simp only [List.map_append, List.map_cons, List.map_nil]
  exact nodup_append_freshId _ _ h.1

/-- The restore loop keeps both primary keys. -/
theorem foldl_restoreInsert_keys (rt : Runtime) (bodies : List VehicleBody) :
    ∀ s : State, (vehicleIdsUnique s ∧ requestIdsUnique s) →
      vehicleIdsUnique (bodies.foldl (restoreInsert rt) s) ∧
      requestIdsUnique (bodies.foldl (restoreInsert rt) s) := by
  induction bodies with
  | nil => intro s h; exact h
  | cons b bs ih => intro s h; exact ih _ (restoreInsert_keys rt s b h)

/-- One pair insert of the bulk share creation keeps both primary keys. -/
theorem insertShareRequest_keys (rt : Runtime) (e : Nat → Nat → Option String) (userId : Nat)
    (acc : State × Nat × List String) (pair : Nat × Nat)
    (h : vehicleIdsUnique acc.1 ∧ requestIdsUnique acc.1) :
    vehicleIdsUnique (insertShareRequest rt e userId acc pair).1 ∧
    requestIdsUnique (insertShareRequest rt e userId acc pair).1 := by
  unfold insertShareRequest
  cases e pair.1 pair.2 with
  | some msg => exact h
  | none =>
    refine ⟨h.1, ?_⟩
    unfold requestIdsUnique
    simp only [List.map_append, List.map_cons, List.map_nil]
    exact nodup_append_freshId _ _ h.2

/-- The bulk share creation loop keeps both primary keys. -/
theorem foldl_insertShareRequest_keys (rt : Runtime) (e : Nat → Nat → Option String)
    (userId : Nat) (pairs : List (Nat × Nat)) :
    ∀ acc : State × Nat × List String, (vehicleIdsUnique acc.1 ∧ requestIdsUnique acc.1) →
      vehicleIdsUnique (pairs.foldl (insertShareRequest rt e userId) acc).1 ∧
      requestIdsUnique (pairs.foldl (insertShareRequest rt e userId) acc).1 := by
  induction pairs with
  | nil => intro acc h; exact h
  | cons p ps ih => intro acc h; exact ih _ (insertShareRequest_keys rt e userId acc p h)

/-- Every handler keeps both primary keys. -/
theorem handle_keys (rt : Runtime) (s : State) (caller : Session) (c : Call)
    (h : vehicleIdsUnique s ∧ requestIdsUnique s) :
    vehicleIdsUnique (handle rt s caller c).2 ∧ requestIdsUnique (handle rt s caller c).2 := by
  cases c with
  | usersCreate u p =>
    by_cases hc : s.users.any (fun x => decide (x.username = u)) = true
    · simp only [handle, usersCreate, insertUser, hc, if_true]
      exact h
    · simp only [handle, usersCreate, insertUser, hc, if_false]
      exact h
  | postUser u p r =>
    simp only [handle, postUser, insertUser]
    split
    · exact h
    · split
      · exact h
      · by_cases hc : s.users.any (fun x => decide (x.username = u)) = true
        · simp only [hc, if_true]
          exact h
        · simp only [hc, if_false]
          exact h
  | deleteUser id =>
    simp only [handle, deleteUser]
    split
    · exact h
    · split <;> exact h
  | putUser id p r =>
    simp only [handle, putUser]
    split <;> exact h
  | postVehicle b =>
    refine ⟨?_, h.2⟩
    simp only [handle, postVehicle, vehicleIdsUnique, List.map_append, List.map_cons, List.map_nil]
    exact nodup_append_freshId _ _ h.1
  | putVehicle id b =>
    simp only [handle, putVehicle]
    split
    · exact h
    · split
      · exact h
      · refine ⟨?_, h.2⟩
        simp only [vehicleIdsUnique, List.map_map]
        have hm : (fun v : Vehicle => v.id) ∘ updateRow rt id b = fun v : Vehicle => v.id := by
          funext v; exact updateRow_id rt id b v
        rw [hm]
        exact h.1
  | deleteVehicle id =>
    simp only [handle, deleteVehicle]
    split
    · exact h
    · split
      · exact h
      · refine ⟨?_, h.2⟩
        simp only [vehicleIdsUnique]
        exact (List.Nodup.sublist (List.Sublist.map _ (List.filter_sublist _)) h.1)
  | postRestore body =>
    simp only [handle, postRestore]
    cases body with
    | none => exact h
    | some vehicles =>
      exact foldl_restoreInsert_keys rt vehicles _ ⟨List.nodup_nil, h.2⟩
  | postShareRequests e vs ts =>
    simp only [handle, postShareRequests]
    split
    · split
      · exact h
      · exact foldl_insertShareRequest_keys rt e caller.userId _ (s, 0, []) h
    · exact h
  | acceptShareRequest id =>
    simp only [handle, acceptShareRequest]
    split
    · exact h
    · split
      · exact h
      · rw [insertOrIgnoreShare_eq]
        refine ⟨h.1, ?_⟩
        simp only [requestIdsUnique, map_setStatus_ids]
        exact h.2
  | rejectShareRequest id =>
    simp only [handle, rejectShareRequest]
    split
    · exact h
    · split
      · exact h
      · refine ⟨h.1, ?_⟩
        simp only [requestIdsUnique, map_setStatus_ids]
        exact h.2

/-- The server keeps both primary keys on every request. -/
theorem serve_keys (rt : Runtime) (s : State) (req : Request)
    (h : vehicleIdsUnique s ∧ requestIdsUnique s) :
    vehicleIdsUnique (serve rt s req).2 ∧ requestIdsUnique (serve rt s req).2 := by
  cases req with
  | login u p =>
    simp only [serve, login]
    split
    · exact h
    · split <;> exact h
  | call caller c =>
    simp only [serve]
    split
    · exact handle_keys rt s caller c h
    · exact h

/-- In every reachable state no two vehicles share an id and no two share requests share
an id. -/
theorem reachable_keys (s : State) (hs : Reachable s) :
    vehicleIdsUnique s ∧ requestIdsUnique s := by
  obtain ⟨trace, rfl⟩ := hs
  have hgen : ∀ (t : List (Runtime × Request)) (s0 : State),
      (vehicleIdsUnique s0 ∧ requestIdsUnique s0) →
      vehicleIdsUnique (run s0 t) ∧ requestIdsUnique (run s0 t) := by
    intro t
    induction t with
    | nil => intro s0 h0; exact h0
    | cons x xs ih =>
      intro s0 h0
      obtain ⟨rt, req⟩ := x
      exact ih _ (serve_keys rt s0 req h0)
  exact hgen trace initialState ⟨List.nodup_nil, List.nodup_nil⟩

/-! ## How a request changes the sharing tables -/

/-- The effect of the bulk creation loop: the other tables are untouched, the pairs whose
insert does not fail are appended in visiting order as pending requests of the caller dated
now, `insertCount` grows by their number, `errors` grows by the number of failing pairs, and
the primary key of `share_requests` is kept. -/
theorem foldl_insertShareRequest_effect (rt : Runtime) (e : Nat → Nat → Option String)
    (userId : Nat) (pairs : List (Nat × Nat)) :
    ∀ acc : State × Nat × List String,
      ∃ added : List ShareRequest,
        (pairs.foldl (insertShareRequest rt e userId) acc).1.vehicles = acc.1.vehicles ∧
        (pairs.foldl (insertShareRequest rt e userId) acc).1.vehicle_shares
          = acc.1.vehicle_shares ∧
        (pairs.foldl (insertShareRequest rt e userId) acc).1.users = acc.1.users ∧
        (pairs.foldl (insertShareRequest rt e userId) acc).1.sessions = acc.1.sessions ∧
        (pairs.foldl (insertShareRequest rt e userId) acc).1.share_requests
          = acc.1.share_requests ++ added ∧
        added.map (fun a => (a.vehicle_id, a.shared_to_user_id))
          = pairs.filter (fun p => (e p.1 p.2).isNone) ∧
        (∀ a ∈ added, a.status = "pending" ∧ a.shared_by_user_id = userId ∧
          a.created_at = rt.now ∧ a.updated_at = rt.now) ∧
        (pairs.foldl (insertShareRequest rt e userId) acc).2.1
          = acc.2.1 + (pairs.filter (fun p => (e p.1 p.2).isNone)).length ∧
        (pairs.foldl (insertShareRequest rt e userId) acc).2.2.length
          = acc.2.2.length + (pairs.filter (fun p => (e p.1 p.2).isSome)).length ∧
        ((acc.1.share_requests.map (fun r => r.id)).Nodup →
          ((pairs.foldl (insertShareRequest rt e userId) acc).1.share_requests.map
            (fun r => r.id)).Nodup) := by
  induction pairs with
  | nil =>
    intro acc
    exact ⟨[], rfl, rfl, rfl, rfl, by simp, rfl, by simp, by simp, by simp, fun h => h⟩
  | cons p ps ih =>
    intro acc
    rw [List.foldl_cons]
    cases hp : e p.1 p.2 with
    | some msg =>
      have hstep : insertShareRequest rt e userId acc p =
          (acc.1, acc.2.1, acc.2.2 ++
            ["Vehicle " ++ toString p.1 ++ " to User " ++ toString p.2 ++ ": " ++ msg]) := by
        simp only [insertShareRequest, hp]
      rw [hstep]
      obtain ⟨added, h1, h2, h3, h4, h5, h6, h7, h8, h9, h10⟩ :=
        ih (acc.1, acc.2.1, acc.2.2 ++
            ["Vehicle " ++ toString p.1 ++ " to User " ++ toString p.2 ++ ": " ++ msg])
      refine ⟨added, h1, h2, h3, h4, h5, ?_, h7, ?_, ?_, h10⟩
      · rw [h6]; simp [List.filter_cons, hp]
      · rw [h8]; simp [List.filter_cons, hp]
      · rw [h9]; simp [List.filter_cons, hp]; omega
    | none =>
      have hstep : insertShareRequest rt e userId acc p =
          ({ acc.1 with
             share_requests := acc.1.share_requests ++
               [{ id := freshId (acc.1.share_requests.map (fun r => r.id)) acc.1.share_requests_seq,
                  vehicle_id := p.1, shared_by_user_id := userId, shared_to_user_id := p.2,
                  status := "pending", created_at := rt.now, updated_at := rt.now }]
             share_requests_seq :=
               freshId (acc.1.share_requests.map (fun r => r.id)) acc.1.share_requests_seq },
           acc.2.1 + 1, acc.2.2) := by
        simp only [insertShareRequest, hp]
      rw [hstep]
      obtain ⟨added, h1, h2, h3, h4, h5, h6, h7, h8, h9, h10⟩ :=
        ih ({ acc.1 with
             share_requests := acc.1.share_requests ++
               [{ id := freshId (acc.1.share_requests.map (fun r => r.id)) acc.1.share_requests_seq,
                  vehicle_id := p.1, shared_by_user_id := userId, shared_to_user_id := p.2,
                  status := "pending", created_at := rt.now, updated_at := rt.now }]
             share_requests_seq :=
               freshId (acc.1.share_requests.map (fun r => r.id)) acc.1.share_requests_seq },
           acc.2.1 + 1, acc.2.2)
      refine ⟨({ id := freshId (acc.1.share_requests.map (fun r => r.id)) acc.1.share_requests_seq,
                 vehicle_id := p.1, shared_by_user_id := userId, shared_to_user_id := p.2,
                 status := "pending", created_at := rt.now, updated_at := rt.now } : ShareRequest)
               :: added, h1, h2, h3, h4, ?_, ?_, ?_, ?_, ?_, ?_⟩
      · rw [h5]; simp
      · simp [List.filter_cons, hp, h6]
      · intro a ha
        rcases List.mem_cons.mp ha with rfl | hmem
        · exact ⟨rfl, rfl, rfl, rfl⟩
        · exact h7 a hmem
      · rw [h8]; simp [List.filter_cons, hp]; omega
      · rw [h9]; simp [List.filter_cons, hp]
      · intro hnd
        apply h10
        simp only [List.map_append, List.map_cons, List.map_nil]
        exact nodup_append_freshId _ _ hnd

/-- What the recipient lookup returns is a row of the table with the asked id and
recipient. -/
theorem findRequest_some (s : State) (requestId userId : Nat) (q : ShareRequest)
    (h : findRequest s requestId userId = some q) :
    q ∈ s.share_requests ∧ q.id = requestId ∧ q.shared_to_user_id = userId := by
  unfold findRequest at h
  have hp := List.find?_some h
  simp only [Bool.and_eq_true, decide_eq_true_eq] at hp
  exact ⟨List.mem_of_find?_eq_some h, hp.1, hp.2⟩

/-- Every request either leaves both sharing tables, or is a bulk creation that appends
pending requests of the caller, or is an accept or a reject of a pending request by its
recipient. -/
theorem serve_sharing_tables (rt : Runtime) (s : State) (req : Request) :
    ((serve rt s req).2.share_requests = s.share_requests ∧
      (serve rt s req).2.vehicle_shares = s.vehicle_shares) ∨
    (∃ (caller : Session) (e : Nat → Nat → Option String) (vs ts : List Nat)
        (added : List ShareRequest),
      req = Request.call caller (Call.postShareRequests e (some vs) (some ts)) ∧
      (serve rt s req).2.vehicle_shares = s.vehicle_shares ∧
      (serve rt s req).2.share_requests = s.share_requests ++ added ∧
      (∀ a ∈ added, a.status = "pending" ∧ a.shared_by_user_id = caller.userId) ∧
      (requestIdsUnique s → requestIdsUnique (serve rt s req).2)) ∨
    (∃ (caller : Session) (q : ShareRequest),
      req = Request.call caller (Call.acceptShareRequest q.id) ∧
      q ∈ s.share_requests ∧ q.shared_to_user_id = caller.userId ∧ q.status = "pending" ∧
      (serve rt s req).2.share_requests = s.share_requests.map (setStatus rt q.id "accepted") ∧
      (serve rt s req).2.vehicle_shares = s.vehicle_shares ++
        [{ id := freshId (s.vehicle_shares.map (fun g => g.id)) s.vehicle_shares_seq,
           vehicle_id := q.vehicle_id, shared_by_user_id := q.shared_by_user_id,
           shared_to_user_id := q.shared_to_user_id }]) ∨
    (∃ (caller : Session) (q : ShareRequest),
      req = Request.call caller (Call.rejectShareRequest q.id) ∧
      q ∈ s.share_requests ∧ q.shared_to_user_id = caller.userId ∧ q.status = "pending" ∧
      (serve rt s req).2.share_requests = s.share_requests.map (setStatus rt q.id "rejected") ∧
      (serve rt s req).2.vehicle_shares = s.vehicle_shares) := by
  cases req with
  | login u p =>
    left
    simp only [serve, login]
    split
    · exact ⟨rfl, rfl⟩
    · split <;> exact ⟨rfl, rfl⟩
  | call caller c =>
    by_cases hin : caller ∈ s.sessions
    swap
    · left
      simp only [serve, hin, if_false]
      simp
    simp only [serve, hin, if_true]
    cases c with
    | usersCreate u p =>
      left
      by_cases hc : s.users.any (fun x => decide (x.username = u)) = true
      · simp only [handle, usersCreate, insertUser, hc, if_true]
        simp
      · simp only [handle, usersCreate, insertUser, hc, if_false]
        exact ⟨rfl, rfl⟩
    | postUser u p r =>
      left
      simp only [handle, postUser, insertUser]
      split
      · exact ⟨rfl, rfl⟩
      · split
        · exact ⟨rfl, rfl⟩
        · by_cases hc : s.users.any (fun x => decide (x.username = u)) = true
          · simp only [hc, if_true]
            simp
          · simp only [hc, if_false]
            exact ⟨rfl, rfl⟩
    | deleteUser id =>
      left
      simp only [handle, deleteUser]
      split
      · exact ⟨rfl, rfl⟩
      · split <;> exact ⟨rfl, rfl⟩
    | putUser id p r =>
      left
      simp only [handle, putUser]
      split <;> exact ⟨rfl, rfl⟩
    | postVehicle b => left; exact ⟨rfl, rfl⟩
    | putVehicle id b =>
      left
      simp only [handle, putVehicle]
      split
      · exact ⟨rfl, rfl⟩
      · split <;> exact ⟨rfl, rfl⟩
    | deleteVehicle id =>
      left
      simp only [handle, deleteVehicle]
      split
      · exact ⟨rfl, rfl⟩
      · split <;> exact ⟨rfl, rfl⟩
    | postRestore body =>
      left
      simp only [handle, postRestore]
      cases body with
      | none => exact ⟨rfl, rfl⟩
      | some vehicles =>
        have hfold : ∀ (bs : List VehicleBody) (s0 : State),
            (bs.foldl (restoreInsert rt) s0).share_requests = s0.share_requests ∧
            (bs.foldl (restoreInsert rt) s0).vehicle_shares = s0.vehicle_shares := by
          intro bs
          induction bs with
          | nil => intro s0; exact ⟨rfl, rfl⟩
          | cons b bs ih => intro s0; exact ih (restoreInsert rt s0 b)
        exact hfold vehicles _
    | postShareRequests e vs ts =>
      cases vs with
      | none => left; simp only [handle, postShareRequests]; simp
      | some vs =>
        cases ts with
        | none => left; simp only [handle, postShareRequests]; simp
        | some ts =>
          by_cases hempty : vs.length = 0 ∨ ts.length = 0
          · left
            simp only [handle, postShareRequests, hempty, if_true]
            simp
          · right; left
            obtain ⟨added, _, h2, _, _, h5, _, h7, _, _, h10⟩ :=
              foldl_insertShareRequest_effect rt e caller.userId (sharePairs vs ts) (s, 0, [])
            refine ⟨caller, e, vs, ts, added, rfl, ?_, ?_, ?_, ?_⟩
            · simp only [handle, postShareRequests, hempty, if_false]
              exact h2
            · simp only [handle, postShareRequests, hempty, if_false]
              exact h5
            · intro a ha
              exact ⟨(h7 a ha).1, (h7 a ha).2.1⟩
            · intro hk
              simp only [handle, postShareRequests, hempty, if_false]
              exact h10 hk
    | acceptShareRequest id =>
      cases hf : findRequest s id caller.userId with
      | none =>
        left
        simp only [handle, acceptShareRequest, hf]
        simp
      | some q =>
        obtain ⟨hq, hid, hto⟩ := findRequest_some s id caller.userId q hf
        by_cases hp : q.status = "pending"
        · right; right; left
          subst hid
          refine ⟨caller, q, rfl, hq, hto, hp, ?_, ?_⟩
          · simp only [handle, acceptShareRequest, hf, hp, ne_eq, not_true_eq_false, if_false,
              insertOrIgnoreShare_eq]
          · simp only [handle, acceptShareRequest, hf, hp, ne_eq, not_true_eq_false, if_false,
              insertOrIgnoreShare_eq]
        · left
          simp only [handle, acceptShareRequest, hf, ne_eq, hp, not_false_eq_true, if_true]
          simp
    | rejectShareRequest id =>
      cases hf : findRequest s id caller.userId with
      | none =>
        left
        simp only [handle, rejectShareRequest, hf]
        simp
      | some q =>
        obtain ⟨hq, hid, hto⟩ := findRequest_some s id caller.userId q hf
        by_cases hp : q.status = "pending"
        · right; right; right
          subst hid
          refine ⟨caller, q, rfl, hq, hto, hp, ?_, ?_⟩
          · simp only [handle, rejectShareRequest, hf, hp, ne_eq, not_true_eq_false, if_false]
          · simp only [handle, rejectShareRequest, hf, hp, ne_eq, not_true_eq_false, if_false]
        · left
          simp only [handle, rejectShareRequest, hf, ne_eq, hp, not_false_eq_true, if_true]
          simp

/-! ## Lifecycle of a share request -/

/-- The server keeps the primary key of `share_requests` on every request. -/
theorem serve_requestKeys (rt : Runtime) (s : State) (req : Request)
    (hk : requestIdsUnique s) : requestIdsUnique (serve rt s req).2 := by
  rcases serve_sharing_tables rt s req with ⟨h, _⟩ | ⟨_, _, _, _, _, _, _, _, _, h⟩ |
    ⟨_, q, _, _, _, _, h, _⟩ | ⟨_, q, _, _, _, _, h, _⟩
  · unfold requestIdsUnique; rw [h]; exact hk
  · exact h hk
  · unfold requestIdsUnique; rw [h, map_setStatus_ids]; exact hk
  · unfold requestIdsUnique; rw [h, map_setStatus_ids]; exact hk

/-- A request that is not pending is still in the table, unchanged, after any request to
the server. -/
theorem serve_keeps_decided (rt : Runtime) (s : State) (req : Request)
    (hk : requestIdsUnique s) (r : ShareRequest) (hr : r ∈ s.share_requests)
    (hd : r.status ≠ "pending") : r ∈ (serve rt s req).2.share_requests := by
  rcases serve_sharing_tables rt s req with ⟨h, _⟩ | ⟨_, _, _, _, added, _, _, h, _, _⟩ |
    ⟨_, q, _, hq, _, hp, h, _⟩ | ⟨_, q, _, hq, _, hp, h, _⟩
  · rw [h]; exact hr
  · rw [h]; exact List.mem_append_left _ hr
  · rw [h]
    have hne : r.id ≠ q.id := by
      intro heq
      have := List.inj_on_of_nodup_map hk hr hq heq
      exact hd (this ▸ hp)
    exact (mem_map_setStatus_of_ne rt q.id "accepted" s.share_requests r hne).mpr hr
  · rw [h]
    have hne : r.id ≠ q.id := by
      intro heq
      have := List.inj_on_of_nodup_map hk hr hq heq
      exact hd (this ▸ hp)
    exact (mem_map_setStatus_of_ne rt q.id "rejected" s.share_requests r hne).mpr hr

/-- A request that is not pending is still in the table, unchanged, after any sequence of
requests, and the primary key still holds. -/
theorem run_keeps_decided (trace : List (Runtime × Request)) :
    ∀ (s : State), requestIdsUnique s → ∀ r ∈ s.share_requests, r.status ≠ "pending" →
      requestIdsUnique (run s trace) ∧ r ∈ (run s trace).share_requests := by
  induction trace with
  | nil => intro s hk r hr _; exact ⟨hk, hr⟩
  | cons x xs ih =>
    intro s hk r hr hd
    obtain ⟨rt, req⟩ := x
    exact ih _ (serve_requestKeys rt s req hk) r (serve_keeps_decided rt s req hk r hr hd) hd

/-- C11: terminal states never revert.  A share request whose status is accepted or
rejected is found unchanged, as the only request of its id, after every sequence of API
requests by any sessions; and whenever one request to the server changes the status of a
share request, the old status was pending, the new one is accepted or rejected, and the
request to the server was an accept or a reject of that id sent by its shared_to user. -/
theorem terminal_status_never_reverts (s : State) (hk : requestIdsUnique s) :
    (∀ r ∈ s.share_requests, (r.status = "accepted" ∨ r.status = "rejected") →
      ∀ trace : List (Runtime × Request),
        r ∈ (run s trace).share_requests ∧
        ∀ q ∈ (run s trace).share_requests, q.id = r.id → q = r) ∧
    (∀ (rt : Runtime) (req : Request), ∀ q0 ∈ s.share_requests,
      ∀ q1 ∈ (serve rt s req).2.share_requests, q1.id = q0.id → q1.status ≠ q0.status →
        q0.status = "pending" ∧ (q1.status = "accepted" ∨ q1.status = "rejected") ∧
        ∃ caller : Session, caller.userId = q0.shared_to_user_id ∧
          (req = Request.call caller (Call.acceptShareRequest q0.id) ∨
           req = Request.call caller (Call.rejectShareRequest q0.id))) := by
  refine ⟨?_, ?_⟩
  · intro r hr hterm trace
    have hd : r.status ≠ "pending" := by
      rcases hterm with h | h <;> rw [h] <;> decide
    obtain ⟨hk2, hr2⟩ := run_keeps_decided trace s hk r hr hd
    exact ⟨hr2, fun q hq hid => List.inj_on_of_nodup_map hk2 hq hr2 hid⟩
  · intro rt req q0 hq0 q1 hq1 hid hst
    have hk1 := serve_requestKeys rt s req hk
    rcases serve_sharing_tables rt s req with ⟨h, _⟩ | ⟨_, _, _, _, added, _, _, h, _, _⟩ |
      ⟨caller, q, hreq, hq, hto, hp, h, _⟩ | ⟨caller, q, hreq, hq, hto, hp, h, _⟩
    · rw [h] at hq1
      exact absurd (congrArg ShareRequest.status (List.inj_on_of_nodup_map hk hq1 hq0 hid)) hst
    · have hq0' : q0 ∈ (serve rt s req).2.share_requests := by
        rw [h]; exact List.mem_append_left _ hq0
      exact absurd (congrArg ShareRequest.status (List.inj_on_of_nodup_map hk1 hq1 hq0' hid)) hst
    · rw [h] at hq1
      obtain ⟨x, hx, rfl⟩ := List.mem_map.mp hq1
      rw [setStatus_id] at hid
      have hx0 : x = q0 := List.inj_on_of_nodup_map hk hx hq0 hid
      subst hx0
      by_cases hxq : x.id = q.id
      · have hxe : x = q := List.inj_on_of_nodup_map hk hx hq hxq
        subst hxe
        refine ⟨hp, Or.inl (by simp [setStatus]), caller, hto.symm, Or.inl hreq⟩
      · exact absurd (by simp [setStatus, hxq]) hst
    · rw [h] at hq1
      obtain ⟨x, hx, rfl⟩ := List.mem_map.mp hq1
      rw [setStatus_id] at hid
      have hx0 : x = q0 := List.inj_on_of_nodup_map hk hx hq0 hid
      subst hx0
      by_cases hxq : x.id = q.id
      · have hxe : x = q := List.inj_on_of_nodup_map hk hx hq hxq
        subst hxe
        refine ⟨hp, Or.inr (by simp [setStatus]), caller, hto.symm, Or.inr hreq⟩
      · exact absurd (by simp [setStatus, hxq]) hst

/-- Witness of C11: in the example store the accepted request 2 survives a reject and an
accept of its recipient and a reject of its sender. -/
theorem terminal_status_never_reverts_witness :
    requestIdsUnique demoState ∧
    demoAccepted ∈ (run demoState
      [(rt0, Request.call aliceSession (Call.rejectShareRequest 2)),
       (rt0, Request.call aliceSession (Call.acceptShareRequest 2)),
       (rt0, Request.call bobSession (Call.rejectShareRequest 2))]).share_requests :=
  have hk : requestIdsUnique demoState := by unfold requestIdsUnique; decide
  ⟨hk, ((terminal_status_never_reverts demoState hk).1 demoAccepted (by decide)
    (Or.inl rfl) _).1⟩

/-- The store after a successful reject: the status UPDATE alone. -/
theorem rejectShareRequest_pending (rt : Runtime) (s : State) (caller : Session)
    (r : ShareRequest) (hk : requestIdsUnique s) (hr : r ∈ s.share_requests)
    (hto : r.shared_to_user_id = caller.userId) (hp : r.status = "pending") :
    rejectShareRequest rt s caller r.id =
      ({ code := 200, body := Body.success },
       { s with share_requests := s.share_requests.map (setStatus rt r.id "rejected") }) := by
  simp only [rejectShareRequest, findRequest_of_mem s hk r hr caller.userId hto, hp,
    ne_eq, not_true_eq_false, if_false]

/-- C12: rejecting a pending request addressed to the caller answers 200; afterwards the
request has status rejected, the share-grant table is exactly what it was (no grant is
created), and every other share request is unchanged. -/
theorem reject_pending_request (rt : Runtime) (s : State) (caller : Session)
    (r : ShareRequest) (hk : requestIdsUnique s) (hr : r ∈ s.share_requests)
    (hto : r.shared_to_user_id = caller.userId) (hp : r.status = "pending") :
    (rejectShareRequest rt s caller r.id).1 = { code := 200, body := Body.success } ∧
    { r with status := "rejected", updated_at := rt.now } ∈
      (rejectShareRequest rt s caller r.id).2.share_requests ∧
    (∀ q ∈ (rejectShareRequest rt s caller r.id).2.share_requests,
      q.id = r.id → q.status = "rejected") ∧
    (rejectShareRequest rt s caller r.id).2.vehicle_shares = s.vehicle_shares ∧
    (∀ q : ShareRequest, q.id ≠ r.id →
      (q ∈ (rejectShareRequest rt s caller r.id).2.share_requests ↔ q ∈ s.share_requests)) := by
  rw [rejectShareRequest_pending rt s caller r hk hr hto hp]
  refine ⟨rfl, ?_, ?_, rfl, ?_⟩
  · exact List.mem_map.mpr ⟨r, hr, by simp [setStatus]⟩
  · intro q hq hid
    obtain ⟨x, _, rfl⟩ := List.mem_map.mp hq
    rw [setStatus_id] at hid
    simp [setStatus, hid]
  · intro q hq
    exact mem_map_setStatus_of_ne rt r.id "rejected" s.share_requests q hq

/-- Witness of C12: user 2 rejects the pending request 1 of the example store. -/
theorem reject_pending_request_witness :
    requestIdsUnique demoState ∧ demoRequest ∈ demoState.share_requests ∧
    demoRequest.shared_to_user_id = aliceSession.userId ∧ demoRequest.status = "pending" ∧
    (rejectShareRequest rt0 demoState aliceSession demoRequest.id).1
      = { code := 200, body := Body.success } ∧
    (rejectShareRequest rt0 demoState aliceSession demoRequest.id).2.vehicle_shares
      = demoState.vehicle_shares :=
  have hk : requestIdsUnique demoState := by unfold requestIdsUnique; decide
  have h := reject_pending_request rt0 demoState aliceSession demoRequest hk
    (by decide) (by decide) (by decide)
  ⟨hk, by decide, by decide, by decide, h.1, h.2.2.2.1⟩

/-! ## Origin of share requests and grants -/

/-- The status UPDATE keeps the triple of every row. -/
theorem setStatus_triple (rt : Runtime) (requestId : Nat) (st : String) (r : ShareRequest) :
    (setStatus rt requestId st r).vehicle_id = r.vehicle_id ∧
    (setStatus rt requestId st r).shared_by_user_id = r.shared_by_user_id ∧
    (setStatus rt requestId st r).shared_to_user_id = r.shared_to_user_id := by
  unfold setStatus
  split <;> exact ⟨rfl, rfl, rfl⟩

/-- An accepted row is accepted after the UPDATE that accepts some id. -/
theorem setStatus_accepted (rt : Runtime) (requestId : Nat) (r : ShareRequest)
    (h : r.status = "accepted") : (setStatus rt requestId "accepted" r).status = "accepted" := by
  unfold setStatus
  split
  · rfl
  · exact h

/-- The server keeps the primary key of `share_requests` and keeps every grant backed by
an accepted request. -/
theorem serve_grantsBacked (rt : Runtime) (s : State) (req : Request)
    (hk : requestIdsUnique s) (hb : grantsBacked s) : grantsBacked (serve rt s req).2 := by
  rcases serve_sharing_tables rt s req with ⟨h1, h2⟩ | ⟨_, _, _, _, added, _, h2, h1, _, _⟩ |
    ⟨_, q, _, hq, _, hp, h1, h2⟩ | ⟨_, q, _, hq, _, hp, h1, h2⟩
  · intro g hg
    rw [h2] at hg
    rw [h1]
    exact hb g hg
  · intro g hg
    rw [h2] at hg
    obtain ⟨r, hr, hrest⟩ := hb g hg
    rw [h1]
    exact ⟨r, List.mem_append_left _ hr, hrest⟩
  · intro g hg
    rw [h2] at hg
    rw [h1]
    rcases List.mem_append.mp hg with hold | hnew
    · obtain ⟨r, hr, hv, hby, hto, hst⟩ := hb g hold
      obtain ⟨t1, t2, t3⟩ := setStatus_triple rt q.id "accepted" r
      exact ⟨setStatus rt q.id "accepted" r, List.mem_map_of_mem _ hr,
        t1.trans hv, t2.trans hby, t3.trans hto, setStatus_accepted rt q.id r hst⟩
    · rw [List.mem_singleton] at hnew
      subst hnew
      obtain ⟨t1, t2, t3⟩ := setStatus_triple rt q.id "accepted" q
      exact ⟨setStatus rt q.id "accepted" q, List.mem_map_of_mem _ hq, t1, t2, t3,
        by simp [setStatus]⟩
  · intro g hg
    rw [h2] at hg
    rw [h1]
    obtain ⟨r, hr, hv, hby, hto, hst⟩ := hb g hg
    have hne : r.id ≠ q.id := by
      intro heq
      have hrq := List.inj_on_of_nodup_map hk hr hq heq
      rw [hrq, hp] at hst
      exact absurd hst (by decide)
    exact ⟨r, (mem_map_setStatus_of_ne rt q.id "rejected" s.share_requests r hne).mpr hr,
      hv, hby, hto, hst⟩

/-- In every reachable state each share grant has the triple of an accepted share
request. -/
theorem reachable_grantsBacked (s : State) (hs : Reachable s) : grantsBacked s := by
  obtain ⟨trace, rfl⟩ := hs
  have hgen : ∀ (t : List (Runtime × Request)) (s0 : State),
      requestIdsUnique s0 → grantsBacked s0 → grantsBacked (run s0 t) := by
    intro t
    induction t with
    | nil => intro s0 _ h0; exact h0
    | cons x xs ih =>
      intro s0 hk h0
      obtain ⟨rt, req⟩ := x
      exact ih _ (serve_requestKeys rt s0 req hk) (serve_grantsBacked rt s0 req hk h0)
  refine hgen trace initialState List.nodup_nil ?_
  intro g hg
  cases hg

/-- C13: POST /api/share-requests lets a user who cannot see a vehicle create a share
request for it.  After the setup bob is a regular user who neither owns vehicle 1 nor holds
a grant on it, yet his bulk creation for vehicle 1 answers 200 with one request created; he
addresses it to himself, accepts it, and the reachable store holds the grant (vehicle 1,
from bob, to bob), after which vehicle 1 of alice is in his list. -/
theorem share_request_by_stranger_succeeds :
    canSee (run initialState setupTrace) bobSession 1 = false ∧
    (serve rt0 (run initialState setupTrace)
      (Request.call bobSession
        (Call.postShareRequests (fun _ _ => none) (some [1]) (some [3])))).1
      = { code := 200, body := Body.shareCreated 1 none } ∧
    Reachable (run initialState strangerShareTrace) ∧
    (run initialState strangerShareTrace).vehicle_shares
      = [{ id := 1, vehicle_id := 1, shared_by_user_id := 3, shared_to_user_id := 3 }] ∧
    (getVehicles rt0 (run initialState strangerShareTrace) bobSession).map
      (fun row => (row.vehicle.id, row.access_level)) = [(1, "shared")] :=
  ⟨by decide, by decide, ⟨strangerShareTrace, rfl⟩, by decide, by decide⟩

/-- What the bulk creation does guarantee: every request in the table afterwards was there
before or is a pending request whose shared_by_user_id is the caller (with both lists
non-empty the answer is 200); and in a reachable state every share grant has the triple of
a share request whose status is accepted. -/
theorem share_requests_carry_their_sender (s : State) (hs : Reachable s) :
    (∀ (rt : Runtime) (e : Nat → Nat → Option String) (caller : Session) (vs ts : List Nat),
      vs ≠ [] → ts ≠ [] →
      (postShareRequests rt e s caller (some vs) (some ts)).1.code = 200 ∧
      ∀ q ∈ (postShareRequests rt e s caller (some vs) (some ts)).2.share_requests,
        q ∈ s.share_requests ∨ (q.shared_by_user_id = caller.userId ∧ q.status = "pending")) ∧
    (∀ g ∈ s.vehicle_shares, ∃ r ∈ s.share_requests,
      r.vehicle_id = g.vehicle_id ∧ r.shared_by_user_id = g.shared_by_user_id ∧
      r.shared_to_user_id = g.shared_to_user_id ∧ r.status = "accepted") := by
  refine ⟨?_, reachable_grantsBacked s hs⟩
  intro rt e caller vs ts hvs hts
  have hempty : ¬ (vs.length = 0 ∨ ts.length = 0) := by
    simp only [List.length_eq_zero]
    rintro (h | h)
    · exact hvs h
    · exact hts h
  obtain ⟨added, _, _, _, _, h5, _, h7, _, _, _⟩ :=
    foldl_insertShareRequest_effect rt e caller.userId (sharePairs vs ts) (s, 0, [])
  simp only [postShareRequests, hempty, if_false]
  refine ⟨trivial, ?_⟩
  intro q hq
  rw [h5] at hq
  rcases List.mem_append.mp hq with hold | hnew
  · exact Or.inl hold
  · exact Or.inr ⟨(h7 q hnew).2.1, (h7 q hnew).1⟩

/-- An instance on the reachable store where bob accepted two requests of alice: the grant
(vehicle 1, from 2, to 3) has an accepted request of the same triple. -/
theorem share_requests_carry_their_sender_witness :
    Reachable (run initialState doubleGrantTrace) ∧
    ∃ r ∈ (run initialState doubleGrantTrace).share_requests,
      r.vehicle_id = 1 ∧ r.shared_by_user_id = 2 ∧ r.shared_to_user_id = 3 ∧
      r.status = "accepted" :=
  ⟨⟨doubleGrantTrace, rfl⟩,
   (share_requests_carry_their_sender (run initialState doubleGrantTrace)
      ⟨doubleGrantTrace, rfl⟩).2
      { id := 1, vehicle_id := 1, shared_by_user_id := 2, shared_to_user_id := 3 }
      (by decide)⟩

/-! ## Bulk creation of share requests -/

/-- C14: the bulk creation answers 400 and leaves the store (so inserts no share request)
when vehicleIds or targetUserIds is not an array or is an empty array; this is so on both
back-ends. -/
theorem share_creation_rejects_bad_lists (rt : Runtime) (e : Nat → Nat → Option String)
    (s : State) (caller : Session) (vs ts : Option (List Nat))
    (h : vs = none ∨ ts = none ∨ vs = some [] ∨ ts = some []) :
    (postShareRequests rt e s caller vs ts).1.code = 400 ∧
    (postShareRequests rt e s caller vs ts).2 = s ∧
    (postShareRequestsTurso rt e s caller vs ts).1.code = 400 ∧
    (postShareRequestsTurso rt e s caller vs ts).2 = s := by
  cases vs with
  | none => simp [postShareRequests, postShareRequestsTurso]
  | some v =>
    cases ts with
    | none => simp [postShareRequests, postShareRequestsTurso]
    | some t =>
      have hempty : v.length = 0 ∨ t.length = 0 := by
        rcases h with h | h | h | h
        · cases h
        · cases h
        · left; simp only [Option.some.injEq] at h; simp [h]
        · right; simp only [Option.some.injEq] at h; simp [h]
      simp only [postShareRequests, postShareRequestsTurso, hempty, if_true]
      simp

/-- Witness of C14: a body without targetUserIds, and a body whose vehicleIds is empty. -/
theorem share_creation_rejects_bad_lists_witness :
    ((some [1] : Option (List Nat)) = none ∨ (none : Option (List Nat)) = none ∨
      (some [1] : Option (List Nat)) = some [] ∨ (none : Option (List Nat)) = some []) ∧
    (postShareRequests rt0 (fun _ _ => none) demoState aliceSession (some [1]) none).1.code
      = 400 ∧
    (postShareRequests rt0 (fun _ _ => none) demoState aliceSession (some [1]) none).2
      = demoState ∧
    (postShareRequests rt0 (fun _ _ => none) demoState aliceSession (some []) (some [3])).1.code
      = 400 ∧
    (postShareRequests rt0 (fun _ _ => none) demoState aliceSession (some []) (some [3])).2
      = demoState :=
  have h1 := share_creation_rejects_bad_lists rt0 (fun _ _ => none) demoState aliceSession
    (some [1]) none (Or.inr (Or.inl rfl))
  have h2 := share_creation_rejects_bad_lists rt0 (fun _ _ => none) demoState aliceSession
    (some []) (some [3]) (Or.inr (Or.inr (Or.inl rfl)))
  ⟨Or.inr (Or.inl rfl), h1.1, h1.2.1, h2.1, h2.2.1⟩

/-- The nested loops visit one pair per vehicle id and target user id. -/
theorem length_sharePairs (vs ts : List Nat) :
    (sharePairs vs ts).length = vs.length * ts.length := by
  induction vs with
  | nil => simp [sharePairs]
  | cons v vs ih =>
    have hcons : sharePairs (v :: vs) ts = ts.map (fun t => (v, t)) ++ sharePairs vs ts := by
      simp [sharePairs, List.flatMap_cons]
    rw [hcons, List.length_append, List.length_map, ih, List.length_cons]
    ring

/-- The pairs visited are the pairs of a listed vehicle id and a listed target user id. -/
theorem mem_sharePairs (vs ts : List Nat) (p : Nat × Nat) :
    p ∈ sharePairs vs ts ↔ p.1 ∈ vs ∧ p.2 ∈ ts := by
  obtain ⟨a, b⟩ := p
  simp only [sharePairs, List.mem_flatMap, List.mem_map, Prod.mk.injEq]
  constructor
  · rintro ⟨v, hv, t, ht, rfl, rfl⟩
    exact ⟨hv, ht⟩
  · rintro ⟨hv, ht⟩
    exact ⟨a, hv, b, ht, rfl, rfl⟩

/-- C15: for non-empty lists of m vehicle ids and n target user ids, when no pair insert
fails, the bulk creation answers 200 with requestsCreated m*n and no errors, appends
exactly m*n share requests, one per visited pair in visiting order (so with multiplicity),
each pending, dated now and with shared_by_user_id the caller, and leaves every request
that existed before in place. -/
theorem share_creation_adds_all_pairs (rt : Runtime) (e : Nat → Nat → Option String)
    (s : State) (caller : Session) (vs ts : List Nat) (hvs : vs ≠ []) (hts : ts ≠ [])
    (hok : ∀ v ∈ vs, ∀ t ∈ ts, e v t = none) :
    (postShareRequests rt e s caller (some vs) (some ts)).1
      = { code := 200, body := Body.shareCreated (vs.length * ts.length) none } ∧
    ∃ added : List ShareRequest,
      (postShareRequests rt e s caller (some vs) (some ts)).2.share_requests
        = s.share_requests ++ added ∧
      added.length = vs.length * ts.length ∧
      added.map (fun a => (a.vehicle_id, a.shared_to_user_id)) = sharePairs vs ts ∧
      (∀ a ∈ added, a.status = "pending" ∧ a.shared_by_user_id = caller.userId ∧
        a.created_at = rt.now ∧ a.updated_at = rt.now) := by
  have hempty : ¬ (vs.length = 0 ∨ ts.length = 0) := by
    simp only [List.length_eq_zero]
    rintro (h | h)
    · exact hvs h
    · exact hts h
  obtain ⟨added, _, _, _, _, h5, h6, h7, h8, h9, _⟩ :=
    foldl_insertShareRequest_effect rt e caller.userId (sharePairs vs ts) (s, 0, [])
  have hall : (sharePairs vs ts).filter (fun p => (e p.1 p.2).isNone) = sharePairs vs ts := by
    rw [List.filter_eq_self]
    intro p hp
    have := (mem_sharePairs vs ts p).mp hp
    simp [hok p.1 this.1 p.2 this.2]
  have hnone : (sharePairs vs ts).filter (fun p => (e p.1 p.2).isSome) = [] := by
    rw [List.filter_eq_nil_iff]
    intro p hp
    have := (mem_sharePairs vs ts p).mp hp
    simp [hok p.1 this.1 p.2 this.2]
  rw [hall] at h6 h8
  rw [hnone] at h9
  have hlen : added.length = vs.length * ts.length := by
    rw [← length_sharePairs, ← h6, List.length_map]
  have herr : (List.foldl (insertShareRequest rt e caller.userId) (s, 0, [])
      (sharePairs vs ts)).2.2 = [] := by
    apply List.eq_nil_of_length_eq_zero
    simpa using h9
  refine ⟨?_, added, ?_, hlen, h6, h7⟩
  · simp only [postShareRequests, hempty, if_false, h8, herr, length_sharePairs]
    simp
  · simp only [postShareRequests, hempty, if_false]
    exact h5

/-- Witness of C15: two vehicle ids and three target user ids on the example store give six
new pending requests. -/
theorem share_creation_adds_all_pairs_witness :
    ([1, 2] : List Nat) ≠ [] ∧ ([1, 2, 3] : List Nat) ≠ [] ∧
    (∀ v ∈ ([1, 2] : List Nat), ∀ t ∈ ([1, 2, 3] : List Nat),
      (fun (_ _ : Nat) => (none : Option String)) v t = none) ∧
    (postShareRequests rt0 (fun _ _ => none) demoState bobSession (some [1, 2])
      (some [1, 2, 3])).1 = { code := 200, body := Body.shareCreated 6 none } :=
  ⟨by decide, by decide, fun _ _ _ _ => rfl,
   (share_creation_adds_all_pairs rt0 (fun _ _ => none) demoState bobSession [1, 2] [1, 2, 3]
      (by decide) (by decide) (fun _ _ _ _ => rfl)).1⟩

/-- On the sqlite3 back-end the response of the bulk creation counts the pair inserts that
succeeded and carries one error entry per pair insert that failed, so the two numbers add
up to m*n. -/
theorem share_creation_counts_sqlite3 (rt : Runtime) (e : Nat → Nat → Option String)
    (s : State) (caller : Session) (vs ts : List Nat) (hvs : vs ≠ []) (hts : ts ≠ []) :
    ∃ (n : Nat) (errs : List String),
      (postShareRequests rt e s caller (some vs) (some ts)).1
        = { code := 200,
            body := Body.shareCreated n (if errs.length > 0 then some errs else none) } ∧
      n = ((sharePairs vs ts).filter (fun p => (e p.1 p.2).isNone)).length ∧
      errs.length = ((sharePairs vs ts).filter (fun p => (e p.1 p.2).isSome)).length ∧
      n + errs.length = vs.length * ts.length := by
  have hempty : ¬ (vs.length = 0 ∨ ts.length = 0) := by
    simp only [List.length_eq_zero]
    rintro (h | h)
    · exact hvs h
    · exact hts h
  obtain ⟨added, _, _, _, _, _, _, _, h8, h9, _⟩ :=
    foldl_insertShareRequest_effect rt e caller.userId (sharePairs vs ts) (s, 0, [])
  have hsplit : ∀ l : List (Nat × Nat),
      (l.filter (fun p => (e p.1 p.2).isNone)).length +
        (l.filter (fun p => (e p.1 p.2).isSome)).length = l.length := by
    intro l
    induction l with
    | nil => rfl
    | cons p ps ih =>
      cases hp : e p.1 p.2 with
      | none => simp [List.filter_cons, hp]; omega
      | some msg => simp [List.filter_cons, hp]; omega
  refine ⟨((sharePairs vs ts).foldl (insertShareRequest rt e caller.userId) (s, 0, [])).2.1,
    ((sharePairs vs ts).foldl (insertShareRequest rt e caller.userId) (s, 0, [])).2.2,
    ?_, ?_, ?_, ?_⟩
  · simp only [postShareRequests, hempty, if_false]
  · simpa using h8
  · simpa using h9
  · have := hsplit (sharePairs vs ts)
    rw [length_sharePairs] at this
    simp only [Nat.zero_add, List.length_nil] at h8 h9
    omega

/-- C16: on the Turso wrapper the response of the bulk creation does not count the inserts.
Alice shares vehicle 1 with bob, one pair and no failing insert: the wrapper answers
requestsCreated 0 although the request row is written, because its finalize calls back
before any run has called back. -/
theorem turso_share_creation_reports_zero :
    (postShareRequestsTurso rt0 (fun _ _ => none) (run initialState setupTrace) aliceSession
      (some [1]) (some [3])).1 = { code := 200, body := Body.shareCreated 0 none } ∧
    (postShareRequestsTurso rt0 (fun _ _ => none) (run initialState setupTrace) aliceSession
      (some [1]) (some [3])).2.share_requests
      = [{ id := 1, vehicle_id := 1, shared_by_user_id := 2, shared_to_user_id := 3,
           status := "pending", created_at := 0, updated_at := 0 }] ∧
    (postShareRequests rt0 (fun _ _ => none) (run initialState setupTrace) aliceSession
      (some [1]) (some [3])).1 = { code := 200, body := Body.shareCreated 1 none } :=
  ⟨by decide, by decide, by decide⟩

/-! ## Share request queries -/

/-- The rows listed for a non-admin caller. -/
theorem mem_getVehicles_nonadmin (rt : Runtime) (s : State) (caller : Session)
    (h : caller.role ≠ "admin") (row : VehicleRow) :
    row ∈ getVehicles rt s caller ↔
      ∃ v ∈ s.vehicles,
        row = { vehicle := withStatus rt v, access_level := row.access_level,
                owner_username := JsVal.undefined } ∧
        ((row.access_level = "owner" ∧ v.owner_id = caller.userId) ∨
         (row.access_level = "shared" ∧ ∃ g ∈ s.vehicle_shares,
            g.vehicle_id = v.id ∧ g.shared_to_user_id = caller.userId)) := by
  simp only [getVehicles, h, if_false, List.mem_map, mem_sqlUnion_rows]
  constructor
  · rintro ⟨⟨v, tag⟩, ⟨hv, hcase⟩, rfl⟩
    exact ⟨v, hv, rfl, hcase⟩
  · rintro ⟨v, hv, hrow, hcase⟩
    exact ⟨(v, row.access_level), ⟨hv, hcase⟩, hrow.symm⟩

/-- The rows of the double join. -/
theorem mem_joinRequests (s : State) (userOf : ShareRequest → Nat)
    (t : ShareRequest × Vehicle × User) :
    t ∈ joinRequests s userOf ↔
      t.1 ∈ s.share_requests ∧ t.2.1 ∈ s.vehicles ∧ t.2.2 ∈ s.users ∧
      t.1.vehicle_id = t.2.1.id ∧ userOf t.1 = t.2.2.id := by
  obtain ⟨sr, v, u⟩ := t
  simp only [joinRequests, List.mem_flatMap, List.mem_filter, List.mem_map, decide_eq_true_eq,
    Prod.mk.injEq]
  constructor
  · rintro ⟨sr0, hsr, v0, ⟨hv, hvid⟩, u0, ⟨hu, huid⟩, rfl, rfl, rfl⟩
    exact ⟨hsr, hv, hu, hvid, huid⟩
  · rintro ⟨hsr, hv, hu, hvid, huid⟩
    exact ⟨sr, hsr, v, ⟨hv, hvid⟩, u, ⟨hu, huid⟩, rfl, rfl, rfl⟩

/-- The ORDER BY clause rearranges the rows and neither drops nor repeats one. -/
theorem orderByCreatedDesc_perm (rows : List (ShareRequest × Vehicle × User)) :
    (orderByCreatedDesc rows).Perm rows :=
  List.perm_insertionSort _ rows

/-- The ORDER BY clause keeps the set of rows. -/
theorem mem_orderByCreatedDesc (rows : List (ShareRequest × Vehicle × User))
    (t : ShareRequest × Vehicle × User) : t ∈ orderByCreatedDesc rows ↔ t ∈ rows :=
  (orderByCreatedDesc_perm rows).mem_iff

/-- The rows of the pending list: one per joined triple of a pending request addressed to
the caller, its vehicle row and the user row of its sender. -/
theorem mem_listPending (s : State) (caller : Session) (row : PendingRow) :
    row ∈ listPending s caller ↔
      ∃ sr ∈ s.share_requests, ∃ v ∈ s.vehicles, ∃ u ∈ s.users,
        sr.vehicle_id = v.id ∧ sr.shared_by_user_id = u.id ∧
        sr.shared_to_user_id = caller.userId ∧ sr.status = "pending" ∧
        row = { id := sr.id, vehicle_id := sr.vehicle_id,
                shared_by_user_id := sr.shared_by_user_id, created_at := sr.created_at,
                vehicleName := v.vehicleName, plateNumber := v.plateNumber,
                ownerName := v.ownerName, shared_by_username := u.username } := by
  simp only [listPending, List.mem_map, mem_orderByCreatedDesc, List.mem_filter,
    mem_joinRequests, Bool.and_eq_true, decide_eq_true_eq]
  constructor
  · rintro ⟨⟨sr, v, u⟩, ⟨⟨hsr, hv, hu, hvid, huid⟩, hto, hst⟩, rfl⟩
    exact ⟨sr, hsr, v, hv, u, hu, hvid, huid, hto, hst, rfl⟩
  · rintro ⟨sr, hsr, v, hv, u, hu, hvid, huid, hto, hst, rfl⟩
    exact ⟨(sr, v, u), ⟨⟨hsr, hv, hu, hvid, huid⟩, hto, hst⟩, rfl⟩

/-- The rows of the sent list: one per joined triple of a request sent by the caller, its
vehicle row and the user row of its recipient. -/
theorem mem_listSent (s : State) (caller : Session) (row : SentRow) :
    row ∈ listSent s caller ↔
      ∃ sr ∈ s.share_requests, ∃ v ∈ s.vehicles, ∃ u ∈ s.users,
        sr.vehicle_id = v.id ∧ sr.shared_to_user_id = u.id ∧
        sr.shared_by_user_id = caller.userId ∧
        row = { id := sr.id, vehicle_id := sr.vehicle_id,
                shared_to_user_id := sr.shared_to_user_id, status := sr.status,
                created_at := sr.created_at, updated_at := sr.updated_at,
                vehicleName := v.vehicleName, plateNumber := v.plateNumber,
                shared_to_username := u.username } := by
  simp only [listSent, List.mem_map, mem_orderByCreatedDesc, List.mem_filter,
    mem_joinRequests, decide_eq_true_eq]
  constructor
  · rintro ⟨⟨sr, v, u⟩, ⟨⟨hsr, hv, hu, hvid, huid⟩, hby⟩, rfl⟩
    exact ⟨sr, hsr, v, hv, u, hu, hvid, huid, hby, rfl⟩
  · rintro ⟨sr, hsr, v, hv, u, hu, hvid, huid, hby, rfl⟩
    exact ⟨(sr, v, u), ⟨⟨hsr, hv, hu, hvid, huid⟩, hby⟩, rfl⟩

/-! ## End to end: share, see it pending, accept, see the vehicle -/

/-- The bulk creation for one vehicle id and one target user, when the insert does not
fail. -/
theorem postShareRequests_single (rt : Runtime) (e : Nat → Nat → Option String) (s : State)
    (caller : Session) (vid tid : Nat) (hok : e vid tid = none) :
    postShareRequests rt e s caller (some [vid]) (some [tid]) =
      ({ code := 200, body := Body.shareCreated 1 none },
       { s with
         share_requests := s.share_requests ++
           [{ id := freshId (s.share_requests.map (fun r => r.id)) s.share_requests_seq,
              vehicle_id := vid, shared_by_user_id := caller.userId, shared_to_user_id := tid,
              status := "pending", created_at := rt.now, updated_at := rt.now }]
         share_requests_seq :=
           freshId (s.share_requests.map (fun r => r.id)) s.share_requests_seq }) := by
  simp [postShareRequests, sharePairs, insertShareRequest, hok]

/-- C17, as stated, fails when B is an admin.  Alice (A) owns vehicle 1 and shares it with
the admin (B, user 1): the request is in the pending list of the admin and the accept
answers 200, but the list of the admin shows vehicle 1 tagged admin, not shared, and showed
it before the accept although the admin held no grant. -/
theorem shared_vehicle_of_admin_is_tagged_admin :
    Reachable (run initialState adminShareTrace) ∧
    aliceSession.userId ≠ adminSession.userId ∧
    (listPending (run initialState adminShareTrace) adminSession).map
      (fun row => (row.id, row.vehicle_id, row.shared_by_user_id)) = [(1, 1, 2)] ∧
    (run initialState adminShareTrace).vehicle_shares = [] ∧
    (getVehicles rt0 (run initialState adminShareTrace) adminSession).map
      (fun row => (row.vehicle.id, row.access_level)) = [(1, "admin")] ∧
    (acceptShareRequest rt0 (run initialState adminShareTrace) adminSession 1).1
      = { code := 200, body := Body.success } ∧
    (getVehicles rt0
      (acceptShareRequest rt0 (run initialState adminShareTrace) adminSession 1).2
      adminSession).map (fun row => (row.vehicle.id, row.access_level)) = [(1, "admin")] :=
  ⟨⟨adminShareTrace, rfl⟩, by decide, by decide, by decide, by decide, by decide, by decide⟩

/-- C17, amended with B not an admin: for users A and B with different ids, B not an
admin, a vehicle V owned by A and the user row of A in the store, after A creates a share
request for ([V], [B]) whose insert does not fail, the request is in the pending list of B;
the accept of B answers 200 and then V is in the list of B tagged shared; and if B held no
grant on V before, V was not in the list of B before the accept. -/
theorem share_then_accept_shows_vehicle (rt rt2 rt3 : Runtime)
    (e : Nat → Nat → Option String) (s : State) (A B : Session) (v : Vehicle) (ua : User)
    (hv : vehicleIdsUnique s) (hk : requestIdsUnique s)
    (hAB : A.userId ≠ B.userId) (hB : B.role ≠ "admin")
    (hmem : v ∈ s.vehicles) (hown : v.owner_id = A.userId)
    (hua : ua ∈ s.users) (huid : ua.id = A.userId) (hok : e v.id B.userId = none) :
    (postShareRequests rt e s A (some [v.id]) (some [B.userId])).1
      = { code := 200, body := Body.shareCreated 1 none } ∧
    (∃ row ∈ listPending (postShareRequests rt e s A (some [v.id]) (some [B.userId])).2 B,
      row.id = freshId (s.share_requests.map (fun r => r.id)) s.share_requests_seq ∧
      row.vehicle_id = v.id ∧ row.shared_by_user_id = A.userId ∧
      row.shared_by_username = ua.username) ∧
    (acceptShareRequest rt2 (postShareRequests rt e s A (some [v.id]) (some [B.userId])).2 B
      (freshId (s.share_requests.map (fun r => r.id)) s.share_requests_seq)).1
      = { code := 200, body := Body.success } ∧
    (∃ row ∈ getVehicles rt3
        (acceptShareRequest rt2 (postShareRequests rt e s A (some [v.id]) (some [B.userId])).2 B
          (freshId (s.share_requests.map (fun r => r.id)) s.share_requests_seq)).2 B,
      row.vehicle.id = v.id ∧ row.access_level = "shared") ∧
    ((∀ g ∈ s.vehicle_shares, ¬ (g.vehicle_id = v.id ∧ g.shared_to_user_id = B.userId)) →
      ∀ row ∈ getVehicles rt3 (postShareRequests rt e s A (some [v.id]) (some [B.userId])).2 B,
        row.vehicle.id ≠ v.id) := by
  rw [postShareRequests_single rt e s A v.id B.userId hok]
  have hk1 : requestIdsUnique
      { s with
        share_requests := s.share_requests ++
          [{ id := freshId (s.share_requests.map (fun r => r.id)) s.share_requests_seq,
             vehicle_id := v.id, shared_by_user_id := A.userId, shared_to_user_id := B.userId,
             status := "pending", created_at := rt.now, updated_at := rt.now }]
        share_requests_seq :=
          freshId (s.share_requests.map (fun r => r.id)) s.share_requests_seq } := by
    unfold requestIdsUnique
    simp only [List.map_append, List.map_cons, List.map_nil]
    exact nodup_append_freshId _ _ hk
  have hacc := acceptShareRequest_pending rt2 _ B
    { id := freshId (s.share_requests.map (fun r => r.id)) s.share_requests_seq,
      vehicle_id := v.id, shared_by_user_id := A.userId, shared_to_user_id := B.userId,
      status := "pending", created_at := rt.now, updated_at := rt.now }
    hk1 (List.mem_append_right _ (List.mem_singleton.mpr rfl)) rfl rfl
  refine ⟨rfl, ?_, ?_, ?_, ?_⟩
  · refine ⟨_, (mem_listPending _ B _).mpr
      ⟨_, List.mem_append_right _ (List.mem_singleton.mpr rfl), v, hmem, ua, hua,
        rfl, huid.symm, rfl, rfl, rfl⟩, rfl, rfl, rfl, rfl⟩
  · rw [hacc]
  · rw [hacc]
    refine ⟨{ vehicle := withStatus rt3 v, access_level := "shared",
              owner_username := JsVal.undefined }, ?_, rfl, rfl⟩
    refine (mem_getVehicles_nonadmin rt3 _ B hB _).mpr ⟨v, hmem, rfl, Or.inr ⟨rfl, ?_⟩⟩
    exact ⟨_, List.mem_append_right _ (List.mem_singleton.mpr rfl), rfl, rfl⟩
  · intro hnone row hrow hid
    obtain ⟨w, hw, hr, hcase⟩ := (mem_getVehicles_nonadmin rt3 _ B hB row).mp hrow
    have hwid : w.id = v.id := by
      rw [hr] at hid
      exact hid
    rcases hcase with ⟨_, ho⟩ | ⟨_, g, hg, hgv, hgt⟩
    · have hwv : w = v := List.inj_on_of_nodup_map hv hw hmem hwid
      rw [hwv, hown] at ho
      exact hAB ho
    · exact hnone g hg ⟨hgv.trans hwid, hgt⟩

/-- Witness of C17 amended: on the example store bob (A) shares his vehicle 3 with alice
(B), who accepts and then has it in her list tagged shared. -/
theorem share_then_accept_shows_vehicle_witness :
    vehicleIdsUnique demoState ∧ requestIdsUnique demoState ∧
    bobSession.userId ≠ aliceSession.userId ∧ aliceSession.role ≠ "admin" ∧
    demoCar ∈ demoState.vehicles ∧ demoCar.owner_id = bobSession.userId ∧
    demoBob ∈ demoState.users ∧ demoBob.id = bobSession.userId ∧
    (fun (_ _ : Nat) => (none : Option String)) demoCar.id aliceSession.userId = none ∧
    (∃ row ∈ getVehicles rt0
        (acceptShareRequest rt0
          (postShareRequests rt0 (fun _ _ => none) demoState bobSession (some [demoCar.id])
            (some [aliceSession.userId])).2 aliceSession
          (freshId (demoState.share_requests.map (fun r => r.id))
            demoState.share_requests_seq)).2 aliceSession,
      row.vehicle.id = demoCar.id ∧ row.access_level = "shared") :=
  have hv : vehicleIdsUnique demoState := by unfold vehicleIdsUnique; decide
  have hk : requestIdsUnique demoState := by unfold requestIdsUnique; decide
  ⟨hv, hk, by decide, by decide, by decide, rfl, by decide, rfl, rfl,
   (share_then_accept_shows_vehicle rt0 rt0 rt0 (fun _ _ => none) demoState bobSession
      aliceSession demoCar demoBob hv hk (by decide) (by decide) (by decide) rfl (by decide)
      rfl rfl).2.2.2.1⟩

/-! ## The admin list -/

/-- On a table without duplicate keys the rows selected by a key are the one row that has
it. -/
theorem filter_unique_key {α : Type} (key : α → Nat) :
    ∀ (l : List α), (l.map key).Nodup → ∀ a ∈ l,
      l.filter (fun x => decide (key a = key x)) = [a] := by
  intro l
  induction l with
  | nil => intro _ a ha; cases ha
  | cons x xs ih =>
    intro hnd a ha
    rw [List.map_cons, List.nodup_cons] at hnd
    rcases List.mem_cons.mp ha with rfl | hmem
    · have hrest : xs.filter (fun x => decide (key a = key x)) = [] := by
        rw [List.filter_eq_nil_iff]
        intro y hy hkey
        simp only [decide_eq_true_eq] at hkey
        exact hnd.1 (hkey ▸ List.mem_map_of_mem key hy)
      simp [List.filter_cons, hrest]
    · have hne : key a ≠ key x := by
        intro heq
        exact hnd.1 (heq ▸ List.mem_map_of_mem key hmem)
      simp only [List.filter_cons, hne, decide_False, Bool.false_eq_true, if_false]
      exact ih hnd.2 a hmem

/-- A join that yields one row per row of the left table is a map. -/
theorem flatMap_singleton_eq_map {α β : Type} (f : α → List β) (g : α → β) :
    ∀ (l : List α), (∀ x ∈ l, f x = [g x]) → l.flatMap f = l.map g := by
  intro l
  induction l with
  | nil => intro _; rfl
  | cons x xs ih =>
    intro h
    rw [List.flatMap_cons, List.map_cons, h x (List.mem_cons_self _ _),
      ih (fun y hy => h y (List.mem_cons_of_mem _ hy))]
    rfl

/-- The LEFT JOIN of the admin query yields one row per vehicle, with the owner name of
the spec. -/
theorem adminRows_eq (s : State) (hu : userIdsUnique s) :
    adminRows s = s.vehicles.map (fun v => (v, ownerUsername s v)) := by
  unfold adminRows
  apply flatMap_singleton_eq_map
  intro v _
  unfold ownerUsername
  cases hf : s.users.find? (fun u => decide (u.id = v.owner_id)) with
  | none =>
    have hnil : s.users.filter (fun u => decide (v.owner_id = u.id)) = [] := by
      rw [List.filter_eq_nil_iff]
      intro u hu2 hkey
      simp only [decide_eq_true_eq] at hkey
      have := (List.find?_eq_none.mp hf) u hu2
      simp only [decide_eq_true_eq] at this
      exact this hkey.symm
    simp [hnil]
  | some u =>
    have hmem := List.mem_of_find?_eq_some hf
    have hid : u.id = v.owner_id := by simpa using List.find?_some hf
    have hone := filter_unique_key (fun u : User => u.id) s.users hu u hmem
    simp only [hid] at hone
    simp [hone]

/-- The owner name of the spec is the username of the user row whose id is the owner id,
and NULL when there is no such row. -/
theorem ownerUsername_spec (s : State) (hu : userIdsUnique s) (v : Vehicle) :
    (∀ u ∈ s.users, u.id = v.owner_id → ownerUsername s v = JsVal.str u.username) ∧
    ((∀ u ∈ s.users, u.id ≠ v.owner_id) → ownerUsername s v = JsVal.null) := by
  refine ⟨?_, ?_⟩
  · intro u hmem hid
    have h := find_of_unique_key (fun u : User => u.id) (fun _ => true) s.users hu u hmem rfl
    simp only [Bool.and_true, hid] at h
    simp [ownerUsername, h]
  · intro hnone
    have h : s.users.find? (fun u => decide (u.id = v.owner_id)) = none := by
      rw [List.find?_eq_none]
      intro u hmem
      simpa using hnone u hmem
    simp [ownerUsername, h]

/-- C18: for an admin caller GET /api/vehicles answers one row per row of the vehicle
table, so as many rows as vehicles and every vehicle id exactly once, each tagged admin,
with owner_username the username of the user whose id is the owner_id of the vehicle and
NULL when no such user exists. -/
theorem getVehicles_admin_all (rt : Runtime) (s : State) (caller : Session)
    (hadmin : caller.role = "admin") (hu : userIdsUnique s) (hv : vehicleIdsUnique s) :
    getVehicles rt s caller = s.vehicles.map (fun v =>
      { vehicle := withStatus rt v, access_level := "admin",
        owner_username := ownerUsername s v }) ∧
    (getVehicles rt s caller).length = s.vehicles.length ∧
    (getVehicles rt s caller).map (fun row => row.vehicle.id) = s.vehicles.map (fun v => v.id) ∧
    ((getVehicles rt s caller).map (fun row => row.vehicle.id)).Nodup ∧
    (∀ row ∈ getVehicles rt s caller, row.access_level = "admin") ∧
    (∀ v ∈ s.vehicles,
      (∀ u ∈ s.users, u.id = v.owner_id → ownerUsername s v = JsVal.str u.username) ∧
      ((∀ u ∈ s.users, u.id ≠ v.owner_id) → ownerUsername s v = JsVal.null)) := by
  have hrows : getVehicles rt s caller = s.vehicles.map (fun v =>
      { vehicle := withStatus rt v, access_level := "admin",
        owner_username := ownerUsername s v }) := by
    simp only [getVehicles, hadmin, if_true, adminRows_eq s hu, List.map_map]
    rfl
  have hids : (getVehicles rt s caller).map (fun row => row.vehicle.id)
      = s.vehicles.map (fun v => v.id) := by
    rw [hrows, List.map_map]
    rfl
  refine ⟨hrows, ?_, hids, ?_, ?_, ?_⟩
  · rw [hrows, List.length_map]
  · rw [hids]; exact hv
  · intro row hrow
    rw [hrows] at hrow
    obtain ⟨v, _, rfl⟩ := List.mem_map.mp hrow
    rfl
  · intro v _
    exact ownerUsername_spec s hu v

/-- Witness of C18: the admin list of the example store has its three vehicles, with the
owner names alice, bob and bob. -/
theorem getVehicles_admin_all_witness :
    adminSession.role = "admin" ∧ userIdsUnique demoState ∧ vehicleIdsUnique demoState ∧
    (getVehicles rt0 demoState adminSession).length = 3 ∧
    (getVehicles rt0 demoState adminSession).map (fun row => row.vehicle.id) = [1, 2, 3] :=
  have hu : userIdsUnique demoState := by unfold userIdsUnique; decide
  have hv : vehicleIdsUnique demoState := by unfold vehicleIdsUnique; decide
  have h := getVehicles_admin_all rt0 demoState adminSession rfl hu hv
  ⟨rfl, hu, hv, h.2.1, h.2.2.1⟩

/-! ## The pending and sent lists -/

/-- On a table without duplicate keys a key selects at most one row. -/
theorem filter_key_length_le_one {α : Type} (key : α → Nat) (k : Nat) (l : List α)
    (hnd : (l.map key).Nodup) : (l.filter (fun x => decide (k = key x))).length ≤ 1 := by
  by_cases hex : ∃ a ∈ l, key a = k
  · obtain ⟨a, ha, rfl⟩ := hex
    rw [filter_unique_key key l hnd a ha]
    rfl
  · have hnil : l.filter (fun x => decide (k = key x)) = [] := by
      rw [List.filter_eq_nil_iff]
      intro y hy hkey
      simp only [decide_eq_true_eq] at hkey
      exact hex ⟨y, hy, hkey.symm⟩
    rw [hnil]
    exact Nat.zero_le 1

/-- With the primary keys of vehicles and users, the double join yields at most one row per
share request, in table order. -/
theorem joinRequests_fst_sublist (s : State) (userOf : ShareRequest → Nat)
    (hv : vehicleIdsUnique s) (hu : userIdsUnique s) :
    ((joinRequests s userOf).map (fun t => t.1)).Sublist s.share_requests := by
  unfold joinRequests
  have hone : ∀ sr : ShareRequest,
      (((s.vehicles.filter (fun v => decide (sr.vehicle_id = v.id))).flatMap (fun v =>
        (s.users.filter (fun u => decide (userOf sr = u.id))).map
          (fun u => (sr, v, u)))).map (fun t => t.1)).Sublist [sr] := by
    intro sr
    have h1 := filter_key_length_le_one (fun v : Vehicle => v.id) sr.vehicle_id s.vehicles hv
    have h2 := filter_key_length_le_one (fun u : User => u.id) (userOf sr) s.users hu
    match hvs : s.vehicles.filter (fun v => decide (sr.vehicle_id = v.id)),
          hus : s.users.filter (fun u => decide (userOf sr = u.id)) with
    | [], _ => rw [hvs]; simp
    | [_], [] => rw [hvs, hus]; simp
    | [_], [_] => rw [hvs, hus]; simp
    | [_], _ :: _ :: _ => rw [hus] at h2; simp at h2
    | _ :: _ :: _, _ => rw [hvs] at h1; simp at h1
  generalize s.share_requests = l
  induction l with
  | nil => simp
  | cons x xs ih =>
    rw [List.flatMap_cons, List.map_append]
    exact List.Sublist.append (hone x) ih

/-- With the three primary keys, the ids of the rows of a filtered and ordered join are
pairwise distinct. -/
theorem ordered_join_ids_nodup (s : State) (userOf : ShareRequest → Nat)
    (p : ShareRequest × Vehicle × User → Bool)
    (hv : vehicleIdsUnique s) (hu : userIdsUnique s) (hk : requestIdsUnique s) :
    ((orderByCreatedDesc ((joinRequests s userOf).filter p)).map (fun t => t.1.id)).Nodup := by
  have hperm := (orderByCreatedDesc_perm ((joinRequests s userOf).filter p)).map
    (fun t => t.1.id)
  rw [hperm.nodup_iff]
  have hsub : (((joinRequests s userOf).filter p).map (fun t => t.1)).Sublist
      s.share_requests :=
    List.Sublist.trans (List.Sublist.map _ (List.filter_sublist _))
      (joinRequests_fst_sublist s userOf hv hu)
  have hmap := List.Sublist.map (fun r : ShareRequest => r.id) hsub
  rw [List.map_map] at hmap
  exact List.Nodup.sublist hmap hk

/-- C19, as stated, fails: after alice shared vehicle 1 with bob and then deleted the
vehicle, the request is still in the table, addressed to bob and pending, but the pending
list of bob is empty, because the query inner-joins the vehicle table. -/
theorem pending_request_of_deleted_vehicle_not_listed :
    Reachable (run initialState orphanRequestTrace) ∧
    (∃ r ∈ (run initialState orphanRequestTrace).share_requests,
      r.shared_to_user_id = bobSession.userId ∧ r.status = "pending") ∧
    listPending (run initialState orphanRequestTrace) bobSession = [] :=
  ⟨⟨orphanRequestTrace, rfl⟩, by decide, by decide⟩

/-- C19, amended: the pending list of a user holds exactly the share requests addressed to
the user with status pending whose vehicle_id is the id of a vehicle row and whose
shared_by_user_id is the id of a user row; each of them appears exactly once, and every
listed row is such a request. -/
theorem listPending_exact (s : State) (caller : Session)
    (hv : vehicleIdsUnique s) (hu : userIdsUnique s) (hk : requestIdsUnique s) :
    (∀ r ∈ s.share_requests,
      (r.id ∈ (listPending s caller).map (fun row => row.id) ↔
        (r.shared_to_user_id = caller.userId ∧ r.status = "pending" ∧
         (∃ v ∈ s.vehicles, v.id = r.vehicle_id) ∧
         (∃ u ∈ s.users, u.id = r.shared_by_user_id)))) ∧
    (∀ row ∈ listPending s caller, ∃ r ∈ s.share_requests,
      r.id = row.id ∧ r.vehicle_id = row.vehicle_id ∧
      r.shared_by_user_id = row.shared_by_user_id ∧ r.created_at = row.created_at ∧
      r.shared_to_user_id = caller.userId ∧ r.status = "pending") ∧
    ((listPending s caller).map (fun row => row.id)).Nodup := by
  refine ⟨?_, ?_, ?_⟩
  · intro r hr
    simp only [List.mem_map]
    constructor
    · rintro ⟨row, hrow, hid⟩
      obtain ⟨sr, hsr, v, hvm, u, hum, hvid, huid, hto, hst, rfl⟩ :=
        (mem_listPending s caller row).mp hrow
      have hsr_eq : sr = r := List.inj_on_of_nodup_map hk hsr hr hid
      subst hsr_eq
      exact ⟨hto, hst, ⟨v, hvm, hvid.symm⟩, ⟨u, hum, huid.symm⟩⟩
    · rintro ⟨hto, hst, ⟨v, hvm, hvid⟩, ⟨u, hum, huid⟩⟩
      exact ⟨_, (mem_listPending s caller _).mpr
        ⟨r, hr, v, hvm, u, hum, hvid.symm, huid.symm, hto, hst, rfl⟩, rfl⟩
  · intro row hrow
    obtain ⟨sr, hsr, v, _, u, _, _, _, hto, hst, rfl⟩ := (mem_listPending s caller row).mp hrow
    exact ⟨sr, hsr, rfl, rfl, rfl, rfl, hto, hst⟩
  · have h := ordered_join_ids_nodup s (fun sr => sr.shared_by_user_id)
      (fun t => decide (t.1.shared_to_user_id = caller.userId) &&
        decide (t.1.status = "pending")) hv hu hk
    simp only [listPending, List.map_map]
    exact h

/-- Witness of C19 amended: in the example store the pending list of user 2 has the pending
request 1 and no id twice. -/
theorem listPending_exact_witness :
    vehicleIdsUnique demoState ∧ userIdsUnique demoState ∧ requestIdsUnique demoState ∧
    (demoRequest.id ∈ (listPending demoState aliceSession).map (fun row => row.id) ↔
      (demoRequest.shared_to_user_id = aliceSession.userId ∧ demoRequest.status = "pending" ∧
       (∃ v ∈ demoState.vehicles, v.id = demoRequest.vehicle_id) ∧
       (∃ u ∈ demoState.users, u.id = demoRequest.shared_by_user_id))) ∧
    ((listPending demoState aliceSession).map (fun row => row.id)).Nodup :=
  have hv : vehicleIdsUnique demoState := by unfold vehicleIdsUnique; decide
  have hu : userIdsUnique demoState := by unfold userIdsUnique; decide
  have hk : requestIdsUnique demoState := by unfold requestIdsUnique; decide
  have h := listPending_exact demoState aliceSession hv hu hk
  ⟨hv, hu, hk, h.1 demoRequest (by decide), h.2.2⟩

/-- C20, as stated, fails: after alice shared vehicle 1 with bob and then deleted the
vehicle, the request is still in the table with alice as sender, but the sent list of
alice is empty, because the query inner-joins the vehicle table. -/
theorem sent_request_of_deleted_vehicle_not_listed :
    Reachable (run initialState orphanRequestTrace) ∧
    (∃ r ∈ (run initialState orphanRequestTrace).share_requests,
      r.shared_by_user_id = aliceSession.userId) ∧
    listSent (run initialState orphanRequestTrace) aliceSession = [] :=
  ⟨⟨orphanRequestTrace, rfl⟩, by decide, by decide⟩

/-- C20, amended: the sent list of a user holds exactly the share requests sent by the
user, whatever their status, whose vehicle_id is the id of a vehicle row and whose
shared_to_user_id is the id of a user row; each of them appears exactly once, with its
status, and every listed row is such a request. -/
theorem listSent_exact (s : State) (caller : Session)
    (hv : vehicleIdsUnique s) (hu : userIdsUnique s) (hk : requestIdsUnique s) :
    (∀ r ∈ s.share_requests,
      (r.id ∈ (listSent s caller).map (fun row => row.id) ↔
        (r.shared_by_user_id = caller.userId ∧
         (∃ v ∈ s.vehicles, v.id = r.vehicle_id) ∧
         (∃ u ∈ s.users, u.id = r.shared_to_user_id)))) ∧
    (∀ row ∈ listSent s caller, ∃ r ∈ s.share_requests,
      r.id = row.id ∧ r.vehicle_id = row.vehicle_id ∧
      r.shared_to_user_id = row.shared_to_user_id ∧ r.status = row.status ∧
      r.created_at = row.created_at ∧ r.updated_at = row.updated_at ∧
      r.shared_by_user_id = caller.userId) ∧
    ((listSent s caller).map (fun row => row.id)).Nodup := by
  refine ⟨?_, ?_, ?_⟩
  · intro r hr
    simp only [List.mem_map]
    constructor
    · rintro ⟨row, hrow, hid⟩
      obtain ⟨sr, hsr, v, hvm, u, hum, hvid, huid, hby, rfl⟩ :=
        (mem_listSent s caller row).mp hrow
      have hsr_eq : sr = r := List.inj_on_of_nodup_map hk hsr hr hid
      subst hsr_eq
      exact ⟨hby, ⟨v, hvm, hvid.symm⟩, ⟨u, hum, huid.symm⟩⟩
    · rintro ⟨hby, ⟨v, hvm, hvid⟩, ⟨u, hum, huid⟩⟩
      exact ⟨_, (mem_listSent s caller _).mpr
        ⟨r, hr, v, hvm, u, hum, hvid.symm, huid.symm, hby, rfl⟩, rfl⟩
  · intro row hrow
    obtain ⟨sr, hsr, v, _, u, _, _, _, hby, rfl⟩ := (mem_listSent s caller row).mp hrow
    exact ⟨sr, hsr, rfl, rfl, rfl, rfl, rfl, rfl, hby⟩
  · have h := ordered_join_ids_nodup s (fun sr => sr.shared_to_user_id)
      (fun t => decide (t.1.shared_by_user_id = caller.userId)) hv hu hk
    simp only [listSent, List.map_map]
    exact h

/-- Witness of C20 amended: in the example store the sent list of user 3 has the accepted
request 2 and no id twice. -/
theorem listSent_exact_witness :
    vehicleIdsUnique demoState ∧ userIdsUnique demoState ∧ requestIdsUnique demoState ∧
    (demoAccepted.id ∈ (listSent demoState bobSession).map (fun row => row.id) ↔
      (demoAccepted.shared_by_user_id = bobSession.userId ∧
       (∃ v ∈ demoState.vehicles, v.id = demoAccepted.vehicle_id) ∧
       (∃ u ∈ demoState.users, u.id = demoAccepted.shared_to_user_id))) ∧
    ((listSent demoState bobSession).map (fun row => row.id)).Nodup :=
  have hv : vehicleIdsUnique demoState := by unfold vehicleIdsUnique; decide
  have hu : userIdsUnique demoState := by unfold userIdsUnique; decide
  have hk : requestIdsUnique demoState := by unfold requestIdsUnique; decide
  have h := listSent_exact demoState bobSession hv hu hk
  ⟨hv, hu, hk, h.1 demoAccepted (by decide), h.2.2⟩

/-! ## The primary key of users holds in every reachable state -/

/-- The restore loop leaves the user table. -/
theorem foldl_restoreInsert_users (rt : Runtime) (bodies : List VehicleBody) :
    ∀ s : State, (bodies.foldl (restoreInsert rt) s).users = s.users := by
  induction bodies with
  | nil => intro s; rfl
  | cons b bs ih => intro s; exact ih (restoreInsert rt s b)

/-- The INSERT of a user keeps the primary key of users. -/
theorem insertUser_keys (s s1 : State) (username password role : String)
    (h : insertUser s username password role = some s1) (hu : userIdsUnique s) :
    userIdsUnique s1 := by
  unfold insertUser at h
  split at h
  · cases h
  · simp only [Option.some.injEq] at h
    subst h
    unfold userIdsUnique
    simp only [List.map_append, List.map_cons, List.map_nil]
    exact nodup_append_freshId _ _ hu

/-- Every handler keeps the primary key of users. -/
theorem handle_userKeys (rt : Runtime) (s : State) (caller : Session) (c : Call)
    (hu : userIdsUnique s) : userIdsUnique (handle rt s caller c).2 := by
  cases c with
  | usersCreate u p =>
    simp only [handle, usersCreate]
    cases hi : insertUser s u p "user" with
    | none => exact hu
    | some s1 => exact insertUser_keys s s1 u p "user" hi hu
  | postUser u p r =>
    simp only [handle, postUser]
    split
    · exact hu
    · split
      · exact hu
      · cases hi : insertUser s u p (if r = "" then "user" else r) with
        | none => exact hu
        | some s1 => exact insertUser_keys s s1 u p _ hi hu
  | deleteUser id =>
    simp only [handle, deleteUser]
    split
    · exact hu
    · split
      · exact hu
      · simp only [userIdsUnique]
        exact List.Nodup.sublist (List.Sublist.map _ (List.filter_sublist _)) hu
  | putUser id p r =>
    simp only [handle, putUser]
    split
    · exact hu
    · simp only [userIdsUnique, List.map_map]
      have hm : ((fun u : User => u.id) ∘ fun u : User =>
          if u.id = id then
            { u with role := r, password := if p = "" then u.password else p }
          else u) = fun u : User => u.id := by
        funext u
        simp only [Function.comp]
        split <;> rfl
      rw [hm]
      exact hu
  | postVehicle b => exact hu
  | putVehicle id b =>
    simp only [handle, putVehicle]
    split
    · exact hu
    · split <;> exact hu
  | deleteVehicle id =>
    simp only [handle, deleteVehicle]
    split
    · exact hu
    · split <;> exact hu
  | postRestore body =>
    simp only [handle, postRestore]
    cases body with
    | none => exact hu
    | some vehicles =>
      simp only [userIdsUnique, foldl_restoreInsert_users]
      exact hu
  | postShareRequests e vs ts =>
    cases vs with
    | none => simp only [handle, postShareRequests]; exact hu
    | some vs =>
      cases ts with
      | none => simp only [handle, postShareRequests]; exact hu
      | some ts =>
        by_cases hempty : vs.length = 0 ∨ ts.length = 0
        · simp only [handle, postShareRequests, hempty, if_true]
          exact hu
        · obtain ⟨_, _, _, h3, _⟩ :=
            foldl_insertShareRequest_effect rt e caller.userId (sharePairs vs ts) (s, 0, [])
          simp only [handle, postShareRequests, hempty, if_false]
          unfold userIdsUnique
          rw [h3]
          exact hu
  | acceptShareRequest id =>
    simp only [handle, acceptShareRequest]
    split
    · exact hu
    · split
      · exact hu
      · rw [insertOrIgnoreShare_eq]
        exact hu
  | rejectShareRequest id =>
    simp only [handle, rejectShareRequest]
    split
    · exact hu
    · split <;> exact hu

/-- In every reachable state no two users share an id. -/
theorem reachable_userKeys (s : State) (hs : Reachable s) : userIdsUnique s := by
  obtain ⟨trace, rfl⟩ := hs
  have hstep : ∀ (rt : Runtime) (s0 : State) (req : Request),
      userIdsUnique s0 → userIdsUnique (serve rt s0 req).2 := by
    intro rt s0 req h0
    cases req with
    | login u p =>
      simp only [serve, login]
      split
      · exact h0
      · split <;> exact h0
    | call caller c =>
      simp only [serve]
      split
      · exact handle_userKeys rt s0 caller c h0
      · exact h0
  have hgen : ∀ (t : List (Runtime × Request)) (s0 : State),
      userIdsUnique s0 → userIdsUnique (run s0 t) := by
    intro t
    induction t with
    | nil => intro s0 h0; exact h0
    | cons x xs ih =>
      intro s0 h0
      obtain ⟨rt, req⟩ := x
      exact ih _ (hstep rt s0 req h0)
  refine hgen trace initialState ?_
  unfold userIdsUnique initialState
  decide

/-! ## Order of the pending and sent lists -/

/-- The ORDER BY clause yields the rows with `created_at` descending. -/
theorem orderByCreatedDesc_sorted (rows : List (ShareRequest × Vehicle × User)) :
    (orderByCreatedDesc rows).Pairwise (fun a b => a.1.created_at ≥ b.1.created_at) := by
  haveI : IsTotal (ShareRequest × Vehicle × User)
      (fun a b => a.1.created_at ≥ b.1.created_at) :=
    ⟨fun a b => le_total b.1.created_at a.1.created_at⟩
  haveI : IsTrans (ShareRequest × Vehicle × User)
      (fun a b => a.1.created_at ≥ b.1.created_at) :=
    ⟨fun _ _ _ hab hbc => le_trans hbc hab⟩
  exact List.sorted_insertionSort _ rows

/-- C21: the pending list and the sent list are ordered newest first: of two consecutive
rows the earlier has a created_at greater than or equal to that of the later, and the same
holds of any two rows in list order. -/
theorem lists_are_newest_first (s : State) (caller : Session) :
    List.Chain' (fun a b : PendingRow => a.created_at ≥ b.created_at) (listPending s caller) ∧
    List.Chain' (fun a b : SentRow => a.created_at ≥ b.created_at) (listSent s caller) ∧
    (listPending s caller).Pairwise (fun a b => a.created_at ≥ b.created_at) ∧
    (listSent s caller).Pairwise (fun a b => a.created_at ≥ b.created_at) := by
  have hp : (listPending s caller).Pairwise (fun a b => a.created_at ≥ b.created_at) := by
    unfold listPending
    rw [List.pairwise_map]
    exact orderByCreatedDesc_sorted _
  have hs : (listSent s caller).Pairwise (fun a b => a.created_at ≥ b.created_at) := by
    unfold listSent
    rw [List.pairwise_map]
    exact orderByCreatedDesc_sorted _
  exact ⟨List.Pairwise.chain' hp, List.Pairwise.chain' hs, hp, hs⟩

/-! ## Creating and updating a vehicle -/

/-- The example conversion of a TEXT column on the kinds of value a form can carry: text
stays, the number 2020 comes back as the text 2020, `true` as the text 1, and a missing
property as NULL. -/
theorem textAffinity_examples :
    textAffinity (JsVal.str "Van") = JsVal.str "Van" ∧
    textAffinity (JsVal.num 2020) = JsVal.str "2020" ∧
    textAffinity (JsVal.num 7) = JsVal.str "7" ∧
    textAffinity (JsVal.bool true) = JsVal.str "1" ∧
    textAffinity JsVal.undefined = JsVal.null ∧
    integerAffinity (JsVal.str "0") = JsVal.num 0 ∧
    integerAffinity (JsVal.str "yes") = JsVal.str "yes" ∧
    integerAffinity (JsVal.bool true) = JsVal.num 1 :=
  ⟨rfl, by decide, by decide, rfl, rfl, by decide, by decide, rfl⟩

/-- C22: POST /api/vehicles, for every caller and every posted JSON object, appends exactly
one vehicle to the table; its id is new, its owner_id is the id of the calling user
whatever owner_id the object carries, its isOnHold is stored as 1 or 0 after the truthiness
of the posted value, its stored status is NULL, each descriptive column holds what its TEXT
column gives back for the posted value, and every vehicle that existed stays as it was. -/
theorem postVehicle_inserts_one (rt : Runtime) (s : State) (caller : Session)
    (j : VehicleJson) :
    ∃ row : Vehicle,
      (postVehicle rt s caller j.destructure).2.vehicles = s.vehicles ++ [row] ∧
      (postVehicle rt s caller j.destructure).1.code = 200 ∧
      (∀ v ∈ s.vehicles, v.id ≠ row.id) ∧
      row.owner_id = caller.userId ∧
      row.isOnHold = JsVal.num (if j.isOnHold.truthy then 1 else 0) ∧
      (row.isOnHold = JsVal.num 1 ∨ row.isOnHold = JsVal.num 0) ∧
      row.status = JsVal.null ∧
      row.ownerName = rt.textColumn j.ownerName ∧
      row.idNumber = rt.textColumn j.idNumber ∧
      row.plateNumber = rt.textColumn j.plateNumber ∧
      row.permitExpiryDate = rt.textColumn j.permitExpiryDate ∧
      row.modelYear = rt.textColumn j.modelYear ∧
      row.vehicleName = rt.textColumn j.vehicleName ∧
      row.category = rt.textColumn j.category ∧
      (postVehicle rt s caller j.destructure).2.vehicles.length = s.vehicles.length + 1 := by
  refine ⟨_, rfl, rfl, ?_, rfl, rfl, ?_, rfl, rfl, rfl, rfl, rfl, rfl, rfl, rfl, ?_⟩
  · intro v hv
    have := lt_freshId (s.vehicles.map (fun v => v.id)) s.vehicles_seq v.id
      (List.mem_map_of_mem (fun v : Vehicle => v.id) hv)
    simp only [VehicleJson.destructure]
    omega
  · simp only [holdFlag, VehicleJson.destructure]
    split
    · exact Or.inl rfl
    · exact Or.inr rfl
  · simp [postVehicle]

/-- The result of an update by the owner or an admin: 200 and the UPDATE applied. -/
theorem putVehicle_allowed (rt : Runtime) (s : State) (caller : Session) (b : VehicleBody)
    (hu : vehicleIdsUnique s) (v : Vehicle) (hv : v ∈ s.vehicles)
    (hok : caller.role = "admin" ∨ v.owner_id = caller.userId) :
    putVehicle rt s caller v.id b =
      ({ code := 200,
         body := Body.updated ((s.vehicles.filter (fun w => decide (w.id = v.id))).length)
                   (calculateStatus rt b.permitExpiryDate b.isOnHold) },
       { s with vehicles := s.vehicles.map (updateRow rt v.id b) }) := by
  have hguard : ¬ (caller.role ≠ "admin" ∧ v.owner_id ≠ caller.userId) := by
    rintro ⟨h1, h2⟩
    rcases hok with h | h
    · exact h1 h
    · exact h2 h
  simp only [putVehicle, find_vehicle s hu v hv, if_neg hguard]

/-- The vehicle UPDATE keeps the owner of every row. -/
theorem updateRow_owner (rt : Runtime) (id : Nat) (b : VehicleBody) (v : Vehicle) :
    (updateRow rt id b v).owner_id = v.owner_id := by
  unfold updateRow
  split <;> rfl

/-- The vehicle UPDATE keeps the stored status of every row. -/
theorem updateRow_status (rt : Runtime) (id : Nat) (b : VehicleBody) (v : Vehicle) :
    (updateRow rt id b v).status = v.status := by
  unfold updateRow
  split <;> rfl

/-- C23: the owner of a vehicle is immutable under PUT /api/vehicles/:id.  For every
successful update by the owner or an admin and every posted JSON object, whatever id or
owner_id it carries, the table has the same (id, owner_id) pairs row by row afterwards, the
updated vehicle keeps its id, owner_id and stored status while each descriptive column
takes what its TEXT column gives back for the posted value, and every other vehicle is
unchanged. -/
theorem putVehicle_keeps_owner (rt : Runtime) (s : State) (caller : Session)
    (j : VehicleJson) (hu : vehicleIdsUnique s) (v : Vehicle) (hv : v ∈ s.vehicles)
    (hok : caller.role = "admin" ∨ v.owner_id = caller.userId) :
    (putVehicle rt s caller v.id j.destructure).1.code = 200 ∧
    (putVehicle rt s caller v.id j.destructure).2.vehicles.map (fun w => (w.id, w.owner_id))
      = s.vehicles.map (fun w => (w.id, w.owner_id)) ∧
    (∃ w ∈ (putVehicle rt s caller v.id j.destructure).2.vehicles,
      w.id = v.id ∧ w.owner_id = v.owner_id ∧ w.status = v.status ∧
      w.ownerName = rt.textColumn j.ownerName ∧
      w.plateNumber = rt.textColumn j.plateNumber ∧
      w.permitExpiryDate = rt.textColumn j.permitExpiryDate ∧
      w.isOnHold = JsVal.num (if j.isOnHold.truthy then 1 else 0)) ∧
    (∀ w ∈ (putVehicle rt s caller v.id j.destructure).2.vehicles,
      w.id = v.id → w.owner_id = v.owner_id) ∧
    (∀ w : Vehicle, w.id ≠ v.id →
      (w ∈ (putVehicle rt s caller v.id j.destructure).2.vehicles ↔ w ∈ s.vehicles)) := by
  rw [putVehicle_allowed rt s caller j.destructure hu v hv hok]
  refine ⟨rfl, ?_, ?_, ?_, ?_⟩
  · simp only [List.map_map]
    apply List.map_congr_left
    intro w _
    simp only [Function.comp, updateRow_id, updateRow_owner]
  · refine ⟨updateRow rt v.id j.destructure v, List.mem_map_of_mem _ hv, ?_⟩
    simp [updateRow, VehicleJson.destructure, holdFlag]
  · intro w hw hid
    obtain ⟨x, hx, rfl⟩ := List.mem_map.mp hw
    rw [updateRow_id] at hid
    rw [updateRow_owner, List.inj_on_of_nodup_map hu hx hv hid]
  · intro w hw
    simp only [List.mem_map]
    constructor
    · rintro ⟨x, hx, rfl⟩
      by_cases hxid : x.id = v.id
      · exfalso
        apply hw
        rw [updateRow_id]
        exact hxid
      · simpa [updateRow, hxid] using hx
    · intro hmem
      exact ⟨w, hmem, by simp [updateRow, hw]⟩

/-- Witness of C23: bob updates his vehicle 3 of the example store with a JSON object that
carries owner_id 1 and id 1; the (id, owner_id) pairs of the table stay. -/
theorem putVehicle_keeps_owner_witness :
    vehicleIdsUnique demoState ∧ demoCar ∈ demoState.vehicles ∧
    (bobSession.role = "admin" ∨ demoCar.owner_id = bobSession.userId) ∧
    (putVehicle rt0 demoState bobSession demoCar.id forgedJson.destructure).1.code = 200 ∧
    (putVehicle rt0 demoState bobSession demoCar.id forgedJson.destructure).2.vehicles.map
        (fun w => (w.id, w.owner_id))
      = demoState.vehicles.map (fun w => (w.id, w.owner_id)) :=
  have hu : vehicleIdsUnique demoState := by unfold vehicleIdsUnique; decide
  have h := putVehicle_keeps_owner rt0 demoState bobSession forgedJson hu demoCar
    (by decide) (Or.inr rfl)
  ⟨hu, by decide, Or.inr rfl, h.1, h.2.1⟩

/-! ## Status is derived -/

/-- C24: the status of every row answered by GET /api/vehicles, for an admin or not, is
calculateStatus of the permitExpiryDate and isOnHold of that row at the time of the call,
whatever the stored status column holds; POST /api/vehicles leaves the status column of the
new row NULL and the stored statuses of the other rows as they were, and PUT
/api/vehicles/:id leaves the stored status of every row as it was. -/
theorem status_is_derived (rt : Runtime) (s : State) (caller : Session) (j : VehicleJson)
    (id : Nat) :
    (∀ row ∈ getVehicles rt s caller,
      row.vehicle.status =
        JsVal.str (calculateStatus rt row.vehicle.permitExpiryDate row.vehicle.isOnHold)) ∧
    (postVehicle rt s caller j.destructure).2.vehicles.map (fun v => v.status)
      = s.vehicles.map (fun v => v.status) ++ [JsVal.null] ∧
    (putVehicle rt s caller id j.destructure).2.vehicles.map (fun v => v.status)
      = s.vehicles.map (fun v => v.status) := by
  refine ⟨?_, ?_, ?_⟩
  · intro row hrow
    unfold getVehicles at hrow
    split at hrow
    · obtain ⟨r, _, rfl⟩ := List.mem_map.mp hrow
      rfl
    · obtain ⟨r, _, rfl⟩ := List.mem_map.mp hrow
      rfl
  · simp [postVehicle]
  · unfold putVehicle
    split
    · rfl
    · split
      · rfl
      · simp only [List.map_map]
        apply List.map_congr_left
        intro w _
        simp only [Function.comp, updateRow_status]

/-! ## Thresholds of the status in milliseconds -/

/-- The day count is negative exactly from one full day in the past on. -/
theorem daysRemaining_neg_iff (e now : Int) :
    daysRemaining e now < 0 ↔ e - now ≤ -86400000 := by
  rw [daysRemaining, ceil_day_quotient]
  omega

/-- The day count is at most ten exactly up to ten full days ahead. -/
theorem daysRemaining_le_ten_iff (e now : Int) :
    daysRemaining e now ≤ 10 ↔ e - now ≤ 864000000 := by
  rw [daysRemaining, ceil_day_quotient]
  omega

/-- C25: with a falsy hold flag and an expiry that parses to the time value e, the status
is Invalid exactly when e - now ≤ -86400000, Valid exactly when e - now > 864000000, and
Expiring Soon exactly in between; so a permit that expired less than 24 hours ago is
Expiring Soon. -/
theorem calculateStatus_thresholds (rt : Runtime) (expiryDate onHold : JsVal) (e : Int)
    (hh : onHold.truthy = false) (he : rt.newDate expiryDate = some e) :
    (calculateStatus rt expiryDate onHold = "Invalid" ↔ e - rt.now ≤ -86400000) ∧
    (calculateStatus rt expiryDate onHold = "Valid" ↔ e - rt.now > 864000000) ∧
    (calculateStatus rt expiryDate onHold = "Expiring Soon" ↔
      (-86400000 < e - rt.now ∧ e - rt.now ≤ 864000000)) ∧
    (-86400000 < e - rt.now → e - rt.now < 0 →
      calculateStatus rt expiryDate onHold = "Expiring Soon") := by
  rw [calculateStatus_of_date rt expiryDate onHold e hh he]
  have h1 := daysRemaining_neg_iff e rt.now
  have h2 := daysRemaining_le_ten_iff e rt.now
  by_cases hneg : daysRemaining e rt.now < 0
  · have hlow := h1.mp hneg
    simp only [hneg, if_true]
    refine ⟨⟨fun _ => hlow, fun _ => trivial⟩, ⟨fun h => absurd h (by decide), fun h => ?_⟩,
      ⟨fun h => absurd h (by decide), fun h => ?_⟩, fun h _ => ?_⟩ <;> omega
  · have hlow : ¬ e - rt.now ≤ -86400000 := fun h => hneg (h1.mpr h)
    by_cases hten : daysRemaining e rt.now ≤ 10
    · have hup := h2.mp hten
      simp only [hneg, hten, if_true, if_false]
      refine ⟨⟨fun h => absurd h (by decide), fun h => absurd h hlow⟩,
        ⟨fun h => absurd h (by decide), fun h => ?_⟩,
        ⟨fun _ => ⟨by omega, hup⟩, fun _ => trivial⟩, fun _ _ => trivial⟩
      omega
    · have hup : ¬ e - rt.now ≤ 864000000 := fun h => hten (h2.mpr h)
      simp only [hneg, hten, if_false]
      refine ⟨⟨fun h => absurd h (by decide), fun h => absurd h hlow⟩,
        ⟨fun _ => by omega, fun _ => trivial⟩,
        ⟨fun h => absurd h (by decide), fun h => absurd h.2 hup⟩, fun _ h => ?_⟩
      omega

/-- Witness of C25: a permit that expired one hour before the call is Expiring Soon. -/
theorem calculateStatus_thresholds_witness :
    JsVal.truthy (JsVal.num 0) = false ∧
    (some (5000000 - 3600000) : Option Int) = some (5000000 - 3600000) ∧
    calculateStatus { now := 5000000, newDate := fun _ => some (5000000 - 3600000) }
      (JsVal.str "1970-01-01T00:23:20Z") (JsVal.num 0) = "Expiring Soon" :=
  ⟨rfl, rfl,
   (calculateStatus_thresholds { now := 5000000, newDate := fun _ => some (5000000 - 3600000) }
      (JsVal.str "1970-01-01T00:23:20Z") (JsVal.num 0) (5000000 - 3600000) rfl rfl).2.2.2
      (by decide) (by decide)⟩

/-- C26: with a falsy hold flag and an expiry value that does not parse to a date, the
status is Valid: the day count is NaN and neither comparison holds. -/
theorem calculateStatus_unparsable (rt : Runtime) (expiryDate onHold : JsVal)
    (hh : onHold.truthy = false) (hn : rt.newDate expiryDate = none) :
    calculateStatus rt expiryDate onHold = "Valid" := by
  simp [calculateStatus, hh, hn, mathCeilDiv, jsLt, jsLe]

/-- Witness of C26: the empty string on a runtime whose Date constructor rejects it. -/
theorem calculateStatus_unparsable_witness :
    JsVal.truthy (JsVal.bool false) = false ∧ rt0.newDate (JsVal.str "") = none ∧
    calculateStatus rt0 (JsVal.str "") (JsVal.bool false) = "Valid" :=
  ⟨rfl, rfl, calculateStatus_unparsable rt0 (JsVal.str "") (JsVal.bool false) rfl rfl⟩

/-! ## Vehicle ids are never handed out twice -/

/-- The next autoincrement id is above the counter. -/
theorem seq_lt_freshId (ids : List Nat) (seq : Nat) : seq < freshId ids seq := by
  have h : seq ≤ max seq (ids.foldr max 0) := le_max_left _ _
  unfold freshId
  omega

/-- The restore loop only raises the counter, and every row after it was there before or
has an id above the old counter and up to the new one. -/
theorem foldl_restoreInsert_ids (rt : Runtime) (bodies : List VehicleBody) :
    ∀ s0 : State,
      s0.vehicles_seq ≤ (bodies.foldl (restoreInsert rt) s0).vehicles_seq ∧
      ∀ w ∈ (bodies.foldl (restoreInsert rt) s0).vehicles,
        w ∈ s0.vehicles ∨
        (s0.vehicles_seq < w.id ∧ w.id ≤ (bodies.foldl (restoreInsert rt) s0).vehicles_seq) := by
  induction bodies with
  | nil => intro s0; exact ⟨le_refl _, fun w hw => Or.inl hw⟩
  | cons b bs ih =>
    intro s0
    rw [List.foldl_cons]
    obtain ⟨hseq, hrows⟩ := ih (restoreInsert rt s0 b)
    have hfresh := seq_lt_freshId (s0.vehicles.map (fun v => v.id)) s0.vehicles_seq
    have hs1 : (restoreInsert rt s0 b).vehicles_seq
        = freshId (s0.vehicles.map (fun v => v.id)) s0.vehicles_seq := rfl
    refine ⟨by omega, ?_⟩
    intro w hw
    rcases hrows w hw with hold | ⟨hlo, hhi⟩
    · have hmem : w ∈ s0.vehicles ++
          [({ id := freshId (s0.vehicles.map (fun v => v.id)) s0.vehicles_seq,
              ownerName := rt.textColumn b.ownerName, idNumber := rt.textColumn b.idNumber,
              plateNumber := rt.textColumn b.plateNumber,
              permitExpiryDate := rt.textColumn b.permitExpiryDate,
              modelYear := rt.textColumn b.modelYear,
              vehicleName := rt.textColumn b.vehicleName,
              category := rt.textColumn b.category, status := JsVal.null,
              isOnHold := rt.integerColumn b.isOnHold, owner_id := 0 } : Vehicle)] := hold
      rcases List.mem_append.mp hmem with h0 | hnew
      · exact Or.inl h0
      · rw [List.mem_singleton] at hnew
        have hid : w.id = freshId (s0.vehicles.map (fun v => v.id)) s0.vehicles_seq := by
          rw [hnew]
        exact Or.inr ⟨by omega, by omega⟩
    · exact Or.inr ⟨by omega, hhi⟩

/-- The bulk creation loop leaves the counter of the vehicle table. -/
theorem foldl_insertShareRequest_vehiclesSeq (rt : Runtime) (e : Nat → Nat → Option String)
    (userId : Nat) (pairs : List (Nat × Nat)) :
    ∀ acc : State × Nat × List String,
      (pairs.foldl (insertShareRequest rt e userId) acc).1.vehicles_seq = acc.1.vehicles_seq := by
  induction pairs with
  | nil => intro acc; rfl
  | cons p ps ih =>
    intro acc
    rw [List.foldl_cons, ih]
    unfold insertShareRequest
    cases e p.1 p.2 <;> rfl

/-- The INSERT of a user leaves the vehicle table and its counter. -/
theorem insertUser_vehicles (s s1 : State) (username password role : String)
    (h : insertUser s username password role = some s1) :
    s1.vehicles = s.vehicles ∧ s1.vehicles_seq = s.vehicles_seq := by
  unfold insertUser at h
  split at h
  · cases h
  · simp only [Option.some.injEq] at h
    subst h
    exact ⟨rfl, rfl⟩

/-- Every request only raises the counter of the vehicle table, and every vehicle after it
has the id of a vehicle that was there before or an id above the old counter and up to the
new one. -/
theorem serve_vehicle_ids (rt : Runtime) (s : State) (req : Request) :
    s.vehicles_seq ≤ (serve rt s req).2.vehicles_seq ∧
    ∀ w ∈ (serve rt s req).2.vehicles,
      (∃ v ∈ s.vehicles, v.id = w.id) ∨
      (s.vehicles_seq < w.id ∧ w.id ≤ (serve rt s req).2.vehicles_seq) := by
  have hsame : ∀ s1 : State, s1.vehicles = s.vehicles → s1.vehicles_seq = s.vehicles_seq →
      s.vehicles_seq ≤ s1.vehicles_seq ∧
      ∀ w ∈ s1.vehicles, (∃ v ∈ s.vehicles, v.id = w.id) ∨
        (s.vehicles_seq < w.id ∧ w.id ≤ s1.vehicles_seq) := by
    intro s1 h1 h2
    rw [h1, h2]
    exact ⟨le_refl _, fun w hw => Or.inl ⟨w, hw, rfl⟩⟩
  cases req with
  | login u p =>
    apply hsame
    · simp only [serve, login]
      split
      · rfl
      · split <;> rfl
    · simp only [serve, login]
      split
      · rfl
      · split <;> rfl
  | call caller c =>
    by_cases hin : caller ∈ s.sessions
    swap
    · apply hsame <;> simp only [serve, hin, if_false]
    simp only [serve, hin, if_true]
    cases c with
    | usersCreate u p =>
      simp only [handle, usersCreate]
      cases hi : insertUser s u p "user" with
      | none => exact hsame s rfl rfl
      | some s1 =>
        obtain ⟨h1, h2⟩ := insertUser_vehicles s s1 u p "user" hi
        exact hsame s1 h1 h2
    | postUser u p r =>
      simp only [handle, postUser]
      split
      · exact hsame s rfl rfl
      · split
        · exact hsame s rfl rfl
        · cases hi : insertUser s u p (if r = "" then "user" else r) with
          | none => exact hsame s rfl rfl
          | some s1 =>
            obtain ⟨h1, h2⟩ := insertUser_vehicles s s1 u p _ hi
            exact hsame s1 h1 h2
    | deleteUser id =>
      simp only [handle, deleteUser]
      split
      · exact hsame s rfl rfl
      · split
        · exact hsame s rfl rfl
        · exact hsame _ rfl rfl
    | putUser id p r =>
      simp only [handle, putUser]
      split
      · exact hsame s rfl rfl
      · exact hsame _ rfl rfl
    | postVehicle b =>
      have hfresh := seq_lt_freshId (s.vehicles.map (fun v => v.id)) s.vehicles_seq
      refine ⟨Nat.le_of_lt hfresh, ?_⟩
      intro w hw
      have hmem : w ∈ s.vehicles ++
          [({ id := freshId (s.vehicles.map (fun v => v.id)) s.vehicles_seq,
              ownerName := rt.textColumn b.ownerName, idNumber := rt.textColumn b.idNumber,
              plateNumber := rt.textColumn b.plateNumber,
              permitExpiryDate := rt.textColumn b.permitExpiryDate,
              modelYear := rt.textColumn b.modelYear,
              vehicleName := rt.textColumn b.vehicleName,
              category := rt.textColumn b.category, status := JsVal.null,
              isOnHold := holdFlag b.isOnHold, owner_id := caller.userId } : Vehicle)] := hw
      have hseq : (handle rt s caller (Call.postVehicle b)).2.vehicles_seq
          = freshId (s.vehicles.map (fun v => v.id)) s.vehicles_seq := rfl
      rcases List.mem_append.mp hmem with h0 | hnew
      · exact Or.inl ⟨w, h0, rfl⟩
      · rw [List.mem_singleton] at hnew
        have hid : w.id = freshId (s.vehicles.map (fun v => v.id)) s.vehicles_seq := by
          rw [hnew]
        exact Or.inr ⟨by omega, by omega⟩
    | putVehicle id b =>
      simp only [handle, putVehicle]
      split
      · exact hsame s rfl rfl
      · split
        · exact hsame s rfl rfl
        · refine ⟨le_refl _, ?_⟩
          intro w hw
          obtain ⟨x, hx, rfl⟩ := List.mem_map.mp hw
          exact Or.inl ⟨x, hx, (updateRow_id rt id b x).symm⟩
    | deleteVehicle id =>
      simp only [handle, deleteVehicle]
      split
      · exact hsame s rfl rfl
      · split
        · exact hsame s rfl rfl
        · refine ⟨le_refl _, ?_⟩
          intro w hw
          exact Or.inl ⟨w, (List.mem_filter.mp hw).1, rfl⟩
    | postRestore body =>
      cases body with
      | none => exact hsame s rfl rfl
      | some vehicles =>
        obtain ⟨hseq, hrows⟩ := foldl_restoreInsert_ids rt vehicles { s with vehicles := [] }
        refine ⟨hseq, ?_⟩
        intro w hw
        rcases hrows w hw with hold | hnew
        · cases hold
        · exact Or.inr hnew
    | postShareRequests e vs ts =>
      cases vs with
      | none => exact hsame s rfl rfl
      | some vs =>
        cases ts with
        | none => exact hsame s rfl rfl
        | some ts =>
          by_cases hempty : vs.length = 0 ∨ ts.length = 0
          · apply hsame <;> simp only [handle, postShareRequests, hempty, if_true]
          · obtain ⟨_, h1, _⟩ :=
              foldl_insertShareRequest_effect rt e caller.userId (sharePairs vs ts) (s, 0, [])
            have h2 := foldl_insertShareRequest_vehiclesSeq rt e caller.userId
              (sharePairs vs ts) (s, 0, [])
            apply hsame
            · simp only [handle, postShareRequests, hempty, if_false]
              exact h1
            · simp only [handle, postShareRequests, hempty, if_false]
              exact h2
    | acceptShareRequest id =>
      simp only [handle, acceptShareRequest]
      split
      · exact hsame s rfl rfl
      · split
        · exact hsame s rfl rfl
        · rw [insertOrIgnoreShare_eq]
          exact hsame _ rfl rfl
    | rejectShareRequest id =>
      simp only [handle, rejectShareRequest]
      split
      · exact hsame s rfl rfl
      · split
        · exact hsame s rfl rfl
        · exact hsame _ rfl rfl

/-- In every reachable state the counter of the vehicle table is at least every vehicle
id. -/
theorem reachable_vehicleSeq (s : State) (hs : Reachable s) : vehicleIdsBelowSeq s := by
  obtain ⟨trace, rfl⟩ := hs
  have hgen : ∀ (t : List (Runtime × Request)) (s0 : State),
      vehicleIdsBelowSeq s0 → vehicleIdsBelowSeq (run s0 t) := by
    intro t
    induction t with
    | nil => intro s0 h0; exact h0
    | cons x xs ih =>
      intro s0 h0
      obtain ⟨rt, req⟩ := x
      apply ih
      obtain ⟨hseq, hrows⟩ := serve_vehicle_ids rt s0 req
      intro w hw
      rcases hrows w hw with ⟨v, hv, hid⟩ | ⟨_, hhi⟩
      · have := h0 v hv
        omega
      · exact hhi
  refine hgen trace initialState ?_
  intro v hv
  cases hv

/-- An id that no vehicle has and that the counter has passed is the id of no vehicle after
any sequence of requests. -/
theorem run_keeps_absent (V : Nat) (trace : List (Runtime × Request)) :
    ∀ s : State, (∀ v ∈ s.vehicles, v.id ≠ V) → V ≤ s.vehicles_seq →
      ∀ v ∈ (run s trace).vehicles, v.id ≠ V := by
  induction trace with
  | nil => intro s h _; exact h
  | cons x xs ih =>
    intro s h hseq
    obtain ⟨rt, req⟩ := x
    obtain ⟨hle, hrows⟩ := serve_vehicle_ids rt s req
    apply ih (serve rt s req).2
    · intro w hw hid
      rcases hrows w hw with ⟨v, hv, hvid⟩ | ⟨hlo, _⟩
      · exact h v hv (hvid.trans hid)
      · omega
    · omega

/-- The rows of the admin query are built from rows of the vehicle table. -/
theorem mem_adminRows (s : State) (r : Vehicle × JsVal) (h : r ∈ adminRows s) :
    r.1 ∈ s.vehicles := by
  unfold adminRows at h
  obtain ⟨v, hv, hr⟩ := List.mem_flatMap.mp h
  split at hr
  · rw [List.mem_singleton] at hr
    rw [hr]
    exact hv
  · obtain ⟨u, _, rfl⟩ := List.mem_map.mp hr
    exact hv

/-- An id that no vehicle has is in no list of vehicles and in no pending or sent list. -/
theorem absent_vehicle_listed_nowhere (rt : Runtime) (s : State) (viewer : Session) (V : Nat)
    (h : ∀ v ∈ s.vehicles, v.id ≠ V) :
    (∀ row ∈ getVehicles rt s viewer, row.vehicle.id ≠ V) ∧
    (∀ row ∈ listPending s viewer, row.vehicle_id ≠ V) ∧
    (∀ row ∈ listSent s viewer, row.vehicle_id ≠ V) := by
  refine ⟨?_, ?_, ?_⟩
  · intro row hrow
    by_cases hadmin : viewer.role = "admin"
    · simp only [getVehicles, hadmin, if_true] at hrow
      obtain ⟨r, hr, rfl⟩ := List.mem_map.mp hrow
      exact h r.1 (mem_adminRows s r hr)
    · obtain ⟨v, hv, hr, _⟩ := (mem_getVehicles_nonadmin rt s viewer hadmin row).mp hrow
      rw [hr]
      exact h v hv
  · intro row hrow
    obtain ⟨sr, _, v, hv, _, _, hvid, _, _, _, rfl⟩ := (mem_listPending s viewer row).mp hrow
    intro hid
    exact h v hv (hvid.symm.trans hid)
  · intro row hrow
    obtain ⟨sr, _, v, hv, _, _, hvid, _, _, rfl⟩ := (mem_listSent s viewer row).mp hrow
    intro hid
    exact h v hv (hvid.symm.trans hid)

/-- A delete that answers 200 found a vehicle of the id and removed the rows of that id,
touching nothing else. -/
theorem deleteVehicle_ok (s : State) (caller : Session) (V : Nat)
    (hdel : (deleteVehicle s caller V).1.code = 200) :
    (∃ v ∈ s.vehicles, v.id = V) ∧
    (deleteVehicle s caller V).2
      = { s with vehicles := s.vehicles.filter (fun v => !decide (v.id = V)) } := by
  unfold deleteVehicle at hdel ⊢
  cases hf : s.vehicles.find? (fun v => decide (v.id = V)) with
  | none =>
    rw [hf] at hdel
    have h404 : (404 : Nat) = 200 := hdel
    exact absurd h404 (by decide)
  | some row =>
    rw [hf] at hdel
    by_cases hguard : caller.role ≠ "admin" ∧ row.owner_id ≠ caller.userId
    · dsimp only at hdel
      rw [if_pos hguard] at hdel
      have h403 : (403 : Nat) = 200 := hdel
      exact absurd h403 (by decide)
    · refine ⟨⟨row, List.mem_of_find?_eq_some hf, by simpa using List.find?_some hf⟩, ?_⟩
      dsimp only
      rw [if_neg hguard]

/-- C27: after a delete of vehicle V that answers 200, the share grants and the share
requests are what they were (also those that reference V), no vehicle has the id V, and
after any further sequence of requests V is in no GET /api/vehicles result (admin, former
owner or grant holder) and in no pending or sent list of any user. -/
theorem deleted_vehicle_is_listed_nowhere (s : State) (caller : Session) (V : Nat)
    (hseq : vehicleIdsBelowSeq s) (hdel : (deleteVehicle s caller V).1.code = 200) :
    (deleteVehicle s caller V).2.vehicle_shares = s.vehicle_shares ∧
    (deleteVehicle s caller V).2.share_requests = s.share_requests ∧
    (∀ v ∈ (deleteVehicle s caller V).2.vehicles, v.id ≠ V) ∧
    ∀ (trace : List (Runtime × Request)) (rt : Runtime) (viewer : Session),
      (∀ row ∈ getVehicles rt (run (deleteVehicle s caller V).2 trace) viewer,
        row.vehicle.id ≠ V) ∧
      (∀ row ∈ listPending (run (deleteVehicle s caller V).2 trace) viewer,
        row.vehicle_id ≠ V) ∧
      (∀ row ∈ listSent (run (deleteVehicle s caller V).2 trace) viewer,
        row.vehicle_id ≠ V) := by
  obtain ⟨⟨v, hv, hid⟩, heq⟩ := deleteVehicle_ok s caller V hdel
  have hgone : ∀ w ∈ (deleteVehicle s caller V).2.vehicles, w.id ≠ V := by
    rw [heq]
    intro w hw
    simpa using (List.mem_filter.mp hw).2
  have hbelow : V ≤ (deleteVehicle s caller V).2.vehicles_seq := by
    rw [heq]
    have := hseq v hv
    simp only
    omega
  refine ⟨by rw [heq], by rw [heq], hgone, ?_⟩
  intro trace rt viewer
  exact absent_vehicle_listed_nowhere rt _ viewer V
    (run_keeps_absent V trace _ hgone hbelow)

/-- Witness of C27: on the example store bob deletes his vehicle 2, on which alice holds a
grant and an accepted request; the grants stay, and after alice then posts a new vehicle
her list has no vehicle 2. -/
theorem deleted_vehicle_is_listed_nowhere_witness :
    vehicleIdsBelowSeq demoState ∧ (deleteVehicle demoState bobSession 2).1.code = 200 ∧
    (deleteVehicle demoState bobSession 2).2.vehicle_shares = demoState.vehicle_shares ∧
    (∀ row ∈ getVehicles rt0
        (run (deleteVehicle demoState bobSession 2).2
          [(rt0, Request.call aliceSession (Call.postVehicle carBody))]) aliceSession,
      row.vehicle.id ≠ 2) :=
  have hseq : vehicleIdsBelowSeq demoState := by unfold vehicleIdsBelowSeq; decide
  have h := deleted_vehicle_is_listed_nowhere demoState bobSession 2 hseq (by decide)
  ⟨hseq, by decide, h.1,
   (h.2.2.2 [(rt0, Request.call aliceSession (Call.postVehicle carBody))] rt0 aliceSession).1⟩

end VMS
